import Mathlib

/-!
# OSCAR_P01_FlasherClient: block transfer and page commit

A shallow embedding of `FlasherClient/Inc/Buff.h` and
`FlasherClient/Src/FlasherClient.cpp`.

Conventions of the embedding:

* a byte is a `Nat`; 8-bit and 16-bit arithmetic of the source is written with an
  explicit `% 256` / `% 65536`;
* a memory region (`uint8_t[]`) is a function from the byte offset to the byte;
* pointers into the buffer of `cBuff` are offsets from `m_pStartBuff`;
* the target is a little-endian 32-bit ARM core: `uint16_t` is 2-byte aligned and
  its low byte comes first;
* the globals `___DataBuff`, `__PageBuff` and the memory-mapped QSPI region are the
  fields of `Mach`; calls into the flash driver and into the USB transmit function
  are recorded in the order in which the source makes them.
-/

namespace Oscar

/-! ## Constants -/

/-- Size of a single transmission block payload in bytes (`#define TAILLE_BLOC_TRANS 1024`). -/
def TAILLE_BLOC_TRANS : Nat := 1024

/-- Number of transmission blocks per QSPI page (`#define NB_BLOC_TRANS 8`). -/
def NB_BLOC_TRANS : Nat := 8

/-- Modelled from the spec: the constant `QFLAH_SECTOR_SIZE` is declared in a header that
is not among the sources. The spec sizes the page staging buffer "to exactly one flash
erase-sector's worth of bytes" with `N = sector size / block-payload size`; the staging
buffer of the source is `__PageBuff[8][1024]`, hence 8192 bytes. -/
def QFLAH_SECTOR_SIZE : Nat := 8192

/-- Page size used by the flasher (`#define TAILLE_PAGES_QSPI QFLAH_SECTOR_SIZE`). -/
def TAILLE_PAGES_QSPI : Nat := QFLAH_SECTOR_SIZE

/-! ## Layout of `struct Bloc` -/

/-- A member of a C struct: its size and its alignment in bytes. -/
structure Member where
  size : Nat
  align : Nat
deriving Repr, DecidableEq

/-- Rounds `off` up to the next multiple of `a`. -/
def alignUp (off a : Nat) : Nat := (off + a - 1) / a * a

/-- Offsets of the members of a struct laid out from offset `off`, each member placed at
the next offset that satisfies its alignment, followed by the first free offset. -/
def memberOffsets : List Member → Nat → List Nat × Nat
  | [], off => ([], off)
  | f :: fs, off =>
    let here := alignUp off f.align
    let rest := memberOffsets fs (here + f.size)
    (here :: rest.1, rest.2)

/-- Size of a struct: the end of the last member rounded up to the strictest alignment. -/
def structSize (fs : List Member) : Nat :=
  alignUp (memberOffsets fs 0).2 (fs.foldl (fun a f => max a f.align) 1)

/-- Members of `struct Bloc`: `char StartMarker[4]; uint16_t NumBloc; uint8_t _CRC;
uint8_t _EndTrans; uint8_t Data[TAILLE_BLOC_TRANS]; char EndMarker[3];`. -/
def BlocMembers : List Member :=
  [⟨4, 1⟩, ⟨2, 2⟩, ⟨1, 1⟩, ⟨1, 1⟩, ⟨TAILLE_BLOC_TRANS, 1⟩, ⟨3, 1⟩]

/-- Value of `sizeof(Bloc)` under the natural alignment of the target (the source sets no
packing): the members end at offset 1035 and the 2-byte alignment of `NumBloc` rounds the
size up. -/
def sizeofBloc : Nat := structSize BlocMembers

/-- Field `StartMarker[i]` of the block at the start of the memory `p`. -/
def Bloc.StartMarker (p : Nat → Nat) (i : Nat) : Nat := p i

/-- Field `NumBloc` of the block at the start of `p` (16 bits, low byte first). -/
def Bloc.NumBloc (p : Nat → Nat) : Nat := p 4 + 256 * p 5

/-- Field `_CRC` of the block at the start of `p`. -/
def Bloc._CRC (p : Nat → Nat) : Nat := p 6

/-- Field `_EndTrans` of the block at the start of `p`. -/
def Bloc._EndTrans (p : Nat → Nat) : Nat := p 7

/-- Field `Data[i]` of the block at the start of `p`. -/
def Bloc.Data (p : Nat → Nat) (i : Nat) : Nat := p (8 + i)

/-- Field `EndMarker[i]` of the block at the start of `p`. -/
def Bloc.EndMarker (p : Nat → Nat) (i : Nat) : Nat := p (1032 + i)

/-! ## `Dad::cBuff` -/

/-- State of a `Dad::cBuff`. `m_pStartBuff` is the allocated memory, indexed from its
first byte; `m_pEndBuff` and `m_pNextData` are the offsets of these two pointers from
the start of the memory. -/
structure cBuff where
  m_pStartBuff : Nat → Nat
  m_pEndBuff : Nat
  m_pNextData : Nat
  m_NbData : Nat

/-- Function `Clear()`: resets the next-write pointer and the count; the memory keeps its
content. -/
def cBuff.Clear (b : cBuff) : cBuff :=
  { b with m_pNextData := 0, m_NbData := 0 }

/-- Constructor `cBuff(uint16_t TailleFIFO)` over freshly allocated memory `fresh` (the
content of `new uint8_t[TailleFIFO]` is not initialised by the source). -/
def cBuff.new (TailleFIFO : Nat) (fresh : Nat → Nat) : cBuff :=
  cBuff.Clear
    { m_pStartBuff := fresh, m_pEndBuff := TailleFIFO % 65536, m_pNextData := 0, m_NbData := 0 }

/-- Function `addData(uint8_t Data)`: the returned flag and the new state. -/
def cBuff.addData (b : cBuff) (Data : Nat) : Bool × cBuff :=
  if b.m_pNextData < b.m_pEndBuff then
    (true,
      { b with
        m_pStartBuff := fun j => if j = b.m_pNextData then Data else b.m_pStartBuff j
        m_pNextData := b.m_pNextData + 1
        m_NbData := (b.m_NbData + 1) % 65536 })
  else
    (false, b)

/-- Function `getBuffPtr()`. -/
def cBuff.getBuffPtr (b : cBuff) : Nat → Nat := b.m_pStartBuff

/-- Function `getNbData()`. -/
def cBuff.getNbData (b : cBuff) : Nat := b.m_NbData

/-! ## Machine state -/

/-- A call into the flash driver, or the read-back pass over the mapped flash. -/
inductive FlashOp where
  | erase (addr : Nat)
  | write (addr len : Nat)
  | readback (addr len : Nat)
deriving Repr, DecidableEq

/-- Request message `struct MsgClient` as handed to `CDC_Transmit_FS`. -/
structure MsgClient where
  StartMarker : List Nat
  NumBloc : Nat
deriving Repr, DecidableEq

/-- The five `return` statements of `BlocProcess`, in source order. -/
inductive Exit where
  | invalidBlock
  | crcMismatch
  | verifyFailed
  | endOfTransmission
  | continueProcessing
deriving Repr, DecidableEq

/-- One invocation of `BlocProcess` by `FlasherClient`: its argument, the value of
`getNbData()` when it was called, and the `return` statement it reached. -/
structure Call where
  NumBloc : Nat
  NbData : Nat
  exit : Exit
deriving Repr, DecidableEq

/-- Globals of `FlasherClient.cpp` and what the outside observes.
`flash` is the memory-mapped QSPI region addressed by absolute address; `ops` lists the
flash operations made so far, `sent` the request messages transmitted so far, `calls`
the invocations of `BlocProcess` made so far by `FlasherClient`, `led` is the state of
the status pin. -/
structure Mach where
  ___DataBuff : cBuff
  __PageBuff : Nat → Nat
  flash : Nat → Nat
  ops : List FlashOp
  sent : List MsgClient
  calls : List Call
  led : Bool

/-- What the source takes from outside `src/`: the poll budget `VAL_TIMEOUT`, the address
of `__FlasherData`, and the two entry points of the flash driver `__Flash`, each as the
transformation it applies to the mapped flash content. -/
structure Platform where
  VAL_TIMEOUT : Nat
  FlasherDataAddr : Nat
  EraseBlock4K : Nat → (Nat → Nat) → (Nat → Nat)
  Write : (Nat → Nat) → Nat → Nat → (Nat → Nat) → (Nat → Nat)

/-! ## `UsbCallbackFlasher` -/

/-- Function `UsbCallbackFlasher(buf, len)`: every received byte is handed to `addData`,
whose result is dropped. -/
def UsbCallbackFlasher (buf : List Nat) (m : Mach) : Mach :=
  { m with ___DataBuff := buf.foldl (fun b d => (b.addData d).2) m.___DataBuff }

/-! ## `BlocProcess` -/

/-- Value returned by `BlocProcess` at each of its `return` statements. -/
def Exit.ret : Exit → Bool
  | .continueProcessing => true
  | _ => false

/-- One pass of the copy loop body at `Index`: accumulate the checksum in 8 bits and copy
the byte into the slot of the page buffer. -/
def copyStep (pBloc : Nat → Nat) (slot : Nat) (acc : Nat × (Nat → Nat)) (Index : Nat) :
    Nat × (Nat → Nat) :=
  ((acc.1 + Bloc.Data pBloc Index) % 256,
   fun j => if j = slot * TAILLE_BLOC_TRANS + Index then Bloc.Data pBloc Index else acc.2 j)

/-- The copy loop `for (Index = 0; Index < TAILLE_BLOC_TRANS; Index++)`, started with
`CalcCRC = 0` on the page buffer `page`. -/
@[irreducible]
def copyLoop (pBloc : Nat → Nat) (slot : Nat) (page : Nat → Nat) : Nat × (Nat → Nat) :=
  (List.range TAILLE_BLOC_TRANS).foldl (copyStep pBloc slot) (0, page)

/-- The read-back loop: `true` when no index below `TAILLE_PAGES_QSPI` differs (the
source returns `false` at the first difference). -/
@[irreducible]
def verifyLoop (page flash : Nat → Nat) (addr : Nat) : Bool :=
  (List.range TAILLE_PAGES_QSPI).all fun Index => decide (page Index = flash (addr + Index))

/-- The test on markers and block number at the head of `BlocProcess`: `true` when the
source returns "Invalid block structure". -/
def headerInvalid (pBloc : Nat → Nat) (NumBloc : Nat) : Bool :=
  decide (Bloc.StartMarker pBloc 0 ≠ 'B'.toNat) ||
  decide (Bloc.StartMarker pBloc 1 ≠ 'L'.toNat) ||
  decide (Bloc.StartMarker pBloc 2 ≠ 'O'.toNat) ||
  decide (Bloc.StartMarker pBloc 3 ≠ 'C'.toNat) ||
  decide (Bloc.EndMarker pBloc 0 ≠ 'E'.toNat) ||
  decide (Bloc.EndMarker pBloc 1 ≠ 'N'.toNat) ||
  decide (Bloc.EndMarker pBloc 2 ≠ 'D'.toNat) ||
  decide (NumBloc ≠ Bloc.NumBloc pBloc)

/-- Function `BlocProcess(uint16_t NumBloc)`: the `return` statement reached and the
machine state left behind. -/
@[irreducible]
def BlocProcess (P : Platform) (NumBloc : Nat) (m : Mach) : Exit × Mach :=
  let pBloc := m.___DataBuff.getBuffPtr
  if headerInvalid pBloc NumBloc then
    (Exit.invalidBlock, m)
  else
    let r := copyLoop pBloc (NumBloc % NB_BLOC_TRANS) m.__PageBuff
    let m1 := { m with __PageBuff := r.2 }
    if r.1 ≠ Bloc._CRC pBloc then
      (Exit.crcMismatch, m1)
    else
      let done := if Bloc._EndTrans pBloc ≠ 0 then Exit.endOfTransmission
                  else Exit.continueProcessing
      if NumBloc % NB_BLOC_TRANS = NB_BLOC_TRANS - 1 ∨ Bloc._EndTrans pBloc ≠ 0 then
        let NumPage := NumBloc / NB_BLOC_TRANS
        let adresseData := P.FlasherDataAddr + NumPage * TAILLE_PAGES_QSPI
        let erased := P.EraseBlock4K adresseData m1.flash
        let written := P.Write m1.__PageBuff adresseData TAILLE_PAGES_QSPI erased
        let m2 := { m1 with
          flash := written
          ops := m1.ops ++ [FlashOp.erase adresseData,
                            FlashOp.write adresseData TAILLE_PAGES_QSPI,
                            FlashOp.readback adresseData TAILLE_PAGES_QSPI] }
        if verifyLoop m2.__PageBuff m2.flash adresseData then (done, m2)
        else (Exit.verifyFailed, m2)
      else
        (done, m1)

/-! ## `FlasherClient` -/

/-- Locals of `FlasherClient` that live across iterations, with the globals. -/
structure Client where
  NumBloc : Nat
  ResultProcess : Bool
  mach : Mach

/-- State on entry to the `while(1)` loop: `NumBloc = 0`, `ResultProcess = false`. -/
def FlasherClient.entry (m : Mach) : Client :=
  { NumBloc := 0, ResultProcess := false, mach := m }

/-- The request message `Msg` with its marker `BLOC` and `Msg.NumBloc = NumBloc`. -/
def requestMsg (NumBloc : Nat) : MsgClient :=
  { StartMarker := ['B'.toNat, 'L'.toNat, 'O'.toNat, 'C'.toNat], NumBloc := NumBloc }

/-- First part of the loop body: choose the block number (16-bit increment), clear the
reception buffer, transmit the request. -/
def FlasherClient.request (s : Client) : Client :=
  let NumBloc := if s.ResultProcess = false then 0 else (s.NumBloc + 1) % 65536
  { NumBloc := NumBloc
    ResultProcess := s.ResultProcess
    mach := { s.mach with
      led := if s.ResultProcess = false then s.mach.led else true
      ___DataBuff := s.mach.___DataBuff.Clear
      sent := s.mach.sent ++ [requestMsg NumBloc] } }

/-- The wait loop `while (getNbData() < sizeof(Bloc) && TimeOut < VAL_TIMEOUT)`.
`rx k` are the bytes the USB callback delivers during the `k`-th `HAL_Delay(10)`;
`polls` counts the delays made so far, `TimeOut` is the 16-bit counter of the source.
Returns `none` when `fuel` evaluations of the loop condition do not end the loop. -/
def FlasherClient.wait (P : Platform) (rx : Nat → List Nat) :
    Nat → Nat → Nat → Mach → Option (Nat × Mach)
  | 0, _, _, _ => none
  | fuel + 1, polls, TimeOut, m =>
    if m.___DataBuff.getNbData < sizeofBloc ∧ TimeOut < P.VAL_TIMEOUT then
      FlasherClient.wait P rx fuel (polls + 1) ((TimeOut + 1) % 65536)
        (UsbCallbackFlasher (rx (polls + 1)) m)
    else
      some (TimeOut, m)

/-- Last part of the loop body: process the received block, or handle the timeout. -/
def FlasherClient.process (P : Platform) (TimeOut : Nat) (s : Client) : Client :=
  if TimeOut < P.VAL_TIMEOUT then
    let r := BlocProcess P s.NumBloc { s.mach with led := false }
    { s with
      ResultProcess := r.1.ret
      mach := { r.2 with
        calls := r.2.calls ++
          [{ NumBloc := s.NumBloc, NbData := s.mach.___DataBuff.getNbData, exit := r.1 }] } }
  else
    { s with ResultProcess := false, mach := { s.mach with led := !s.mach.led } }

/-- One pass of the body of `while(1)`. `rx 0` are the bytes delivered between the
transmission of the request and the first evaluation of the wait condition. -/
def FlasherClient.iteration (P : Platform) (fuel : Nat) (rx : Nat → List Nat) (s : Client) :
    Option Client :=
  let s1 := FlasherClient.request s
  match FlasherClient.wait P rx fuel 0 0 (UsbCallbackFlasher (rx 0) s1.mach) with
  | none => none
  | some (TimeOut, m) => some (FlasherClient.process P TimeOut { s1 with mach := m })

/-- Function `FlasherClient()`, observed after `n` passes of its `while(1)` loop;
`rx i` is the delivery schedule of pass `i`. The loop of the source has no exit. -/
def FlasherClient (P : Platform) (fuel : Nat) (rx : Nat → Nat → List Nat) :
    Nat → Client → Option Client
  | 0, s => some s
  | n + 1, s => (FlasherClient P fuel rx n s).bind (FlasherClient.iteration P fuel (rx n))

/-- Reception buffer at the `k`-th evaluation of the wait condition, had the loop run
that far, starting from the machine `m` left by the request. -/
def FlasherClient.atPoll (rx : Nat → List Nat) (m : Mach) : Nat → Mach
  | 0 => UsbCallbackFlasher (rx 0) m
  | k + 1 => UsbCallbackFlasher (rx (k + 1)) (FlasherClient.atPoll rx m k)

/-! ## Reading of the claims -/

/-- Sum of the `TAILLE_BLOC_TRANS` payload bytes of the block at the start of `p`. -/
@[irreducible]
def payloadSum (p : Nat → Nat) : Nat :=
  ((List.range TAILLE_BLOC_TRANS).map (Bloc.Data p)).sum

/-- The four conditions of a well-formed block for the expected number `n`: start marker
`BLOC`, end marker `END`, embedded number `n`, checksum byte equal to the payload sum
modulo 256. -/
def ValidBloc (p : Nat → Nat) (n : Nat) : Prop :=
  (Bloc.StartMarker p 0 = 'B'.toNat ∧ Bloc.StartMarker p 1 = 'L'.toNat ∧
    Bloc.StartMarker p 2 = 'O'.toNat ∧ Bloc.StartMarker p 3 = 'C'.toNat) ∧
  (Bloc.EndMarker p 0 = 'E'.toNat ∧ Bloc.EndMarker p 1 = 'N'.toNat ∧
    Bloc.EndMarker p 2 = 'D'.toNat) ∧
  Bloc.NumBloc p = n ∧
  payloadSum p % 256 = Bloc._CRC p

instance (p : Nat → Nat) (n : Nat) : Decidable (ValidBloc p n) := by
  unfold ValidBloc; infer_instance

/-- Byte offset of slot `slot` in the flat page buffer. -/
def slotOffset (slot : Nat) : Nat := slot * TAILLE_BLOC_TRANS

/-- Address of page `NumPage` of `__FlasherData`. -/
def pageAddr (P : Platform) (NumPage : Nat) : Nat :=
  P.FlasherDataAddr + NumPage * TAILLE_PAGES_QSPI

/-- The page buffer with the payload of the block at the start of `p` stored in slot
`slot`. -/
def storeSlot (p : Nat → Nat) (slot : Nat) (page : Nat → Nat) : Nat → Nat :=
  fun j => if slotOffset slot ≤ j ∧ j < slotOffset slot + TAILLE_BLOC_TRANS
    then Bloc.Data p (j - slotOffset slot) else page j

/-- Memory `p` with the byte at offset `k` replaced by `v`. -/
def poke (p : Nat → Nat) (k v : Nat) : Nat → Nat :=
  fun j => if j = k then v else p j

/-- Machine `m` whose reception buffer holds the bytes `p`. -/
def withBuff (p : Nat → Nat) (m : Mach) : Mach :=
  { m with ___DataBuff := { m.___DataBuff with m_pStartBuff := p } }

/-- Machine `m` after the reception buffer has been cleared and has received the
`sizeof(Bloc)` bytes of `p`. -/
def received (p : Nat → Nat) (m : Mach) : Mach :=
  { m with ___DataBuff :=
      { m.___DataBuff with
        m_pStartBuff := p, m_pNextData := sizeofBloc, m_NbData := sizeofBloc } }

/-- Machine after the blocks `blocs 0`, ..., `blocs (k - 1)`, numbered from `first`, have
each been received and handed to `BlocProcess`, in this order. -/
def sweep (P : Platform) (first : Nat) (blocs : Nat → Nat → Nat) : Nat → Mach → Mach
  | 0, m => m
  | k + 1, m => (BlocProcess P (first + k) (received (blocs k) (sweep P first blocs k m))).2

/-- A flash in which a range written after the erase of its sector reads back as
written. -/
def Faithful (P : Platform) : Prop :=
  ∀ (buf : Nat → Nat) (addr len : Nat) (flash : Nat → Nat) (i : Nat), i < len →
    P.Write buf addr len (P.EraseBlock4K addr flash) (addr + i) = buf i

/-- Machine after the payload of the received block has been stored in the slot of
block number `n`. -/
def assembled (n : Nat) (m : Mach) : Mach :=
  { m with __PageBuff := storeSlot m.___DataBuff.getBuffPtr (n % NB_BLOC_TRANS) m.__PageBuff }

/-- Machine after the page of block number `n` has been erased, written from the page
buffer of `m`, and read back. -/
def committed (P : Platform) (n : Nat) (m : Mach) : Mach :=
  { m with
    flash := P.Write m.__PageBuff (pageAddr P (n / NB_BLOC_TRANS)) TAILLE_PAGES_QSPI
      (P.EraseBlock4K (pageAddr P (n / NB_BLOC_TRANS)) m.flash)
    ops := m.ops ++ [FlashOp.erase (pageAddr P (n / NB_BLOC_TRANS)),
      FlashOp.write (pageAddr P (n / NB_BLOC_TRANS)) TAILLE_PAGES_QSPI,
      FlashOp.readback (pageAddr P (n / NB_BLOC_TRANS)) TAILLE_PAGES_QSPI] }

/-- The page of block number `n` is due: last slot of the page, or flagged block. -/
def pageDue (n : Nat) (m : Mach) : Prop :=
  n % NB_BLOC_TRANS = NB_BLOC_TRANS - 1 ∨ Bloc._EndTrans m.___DataBuff.getBuffPtr ≠ 0

instance (n : Nat) (m : Mach) : Decidable (pageDue n m) := by
  unfold pageDue; infer_instance

/-- Exit taken by a block that passed every check. -/
def doneExit (m : Mach) : Exit :=
  if Bloc._EndTrans m.___DataBuff.getBuffPtr ≠ 0 then Exit.endOfTransmission
  else Exit.continueProcessing

/-! ## Sample inputs -/

/-- Bytes of a block: markers `BLOC` and `END`, number `n`, checksum byte `crc`, flag
`flag`, payload `data`, and one padding byte. -/
def sampleBloc (n crc flag : Nat) (data : Nat → Nat) : Nat → Nat := fun i =>
  if i < 4 then ['B'.toNat, 'L'.toNat, 'O'.toNat, 'C'.toNat].getD i 0
  else if i = 4 then n % 256
  else if i = 5 then n / 256
  else if i = 6 then crc
  else if i = 7 then flag
  else if i < 1032 then data (i - 8)
  else ['E'.toNat, 'N'.toNat, 'D'.toNat].getD (i - 1032) 0

/-- Payload whose first byte is `1` and whose other bytes are `0`. -/
def samplePayload : Nat → Nat := fun i => if i = 0 then 1 else 0

/-- A platform whose flash erases a sector to `0xFF` and stores what is written. -/
def samplePlatform : Platform :=
  { VAL_TIMEOUT := 3
    FlasherDataAddr := 0
    EraseBlock4K := fun addr flash x =>
      if addr ≤ x ∧ x < addr + QFLAH_SECTOR_SIZE then 255 else flash x
    Write := fun buf addr len flash x =>
      if addr ≤ x ∧ x < addr + len then buf (x - addr) else flash x }

/-- A platform whose flash erases a sector to `0xFF` and ignores every write. -/
def deadPlatform : Platform :=
  { samplePlatform with Write := fun _ _ _ flash => flash }

/-- A machine whose reception buffer (capacity `2 * sizeof(Bloc)`) holds the
`sizeof(Bloc)` bytes of `p`, with a zeroed page buffer and an erased flash. -/
def sampleMach (p : Nat → Nat) : Mach :=
  { ___DataBuff :=
      { m_pStartBuff := p, m_pEndBuff := 2 * sizeofBloc, m_pNextData := sizeofBloc,
        m_NbData := sizeofBloc }
    __PageBuff := fun _ => 0
    flash := fun _ => 255
    ops := []
    sent := []
    calls := []
    led := false }

/-- The machine at power-on: an empty reception buffer of capacity `2 * sizeof(Bloc)`,
a zeroed page buffer, an erased flash, nothing sent or done yet. -/
def bootMach : Mach :=
  { ___DataBuff := cBuff.new (sizeofBloc * 2) (fun _ => 0)
    __PageBuff := fun _ => 0
    flash := fun _ => 255
    ops := []
    sent := []
    calls := []
    led := false }

/-- The `sizeof(Bloc)` bytes of `p` as one delivery of the USB callback. -/
def blocBytes (p : Nat → Nat) : List Nat := (List.range sizeofBloc).map p

/-- Delivery schedule of one pass: the bytes `buf` before the first poll, then silence. -/
def atOnce (buf : List Nat) : Nat → List Nat := fun k => if k = 0 then buf else []

/-- Delivery schedule of one pass in which nothing arrives. -/
def silence : Nat → List Nat := fun _ => []

/-- Machine `m` after a cleared reception buffer has taken the `sizeof(Bloc)` bytes of
`p`; the bytes of the buffer memory further up keep their content. -/
def delivered (p : Nat → Nat) (m : Mach) : Mach :=
  { m with ___DataBuff :=
      { m_pStartBuff := fun j => if j < sizeofBloc then p j else m.___DataBuff.m_pStartBuff j
        m_pEndBuff := m.___DataBuff.m_pEndBuff
        m_pNextData := sizeofBloc
        m_NbData := sizeofBloc } }

/-- A client that has just handled block 1 with success. -/
def afterBloc1 : Client := { NumBloc := 1, ResultProcess := true, mach := bootMach }

/-- A client that has just handled block 6 with success. -/
def afterBloc6 : Client := { NumBloc := 6, ResultProcess := true, mach := bootMach }

/-- Block 2 with a checksum byte `0` that does not match its payload sum `1`. -/
def badCrcBloc2 : Nat → Nat := sampleBloc 2 0 0 samplePayload

/-- A well-formed block 7, unflagged. -/
def goodBloc7 : Nat → Nat := sampleBloc 7 1 0 samplePayload

/-- A well-formed block 0 that carries the end-of-transfer flag. -/
def lastBloc0 : Nat → Nat := sampleBloc 0 1 1 samplePayload

/-- The machine that `FlasherClient` hands to `BlocProcess` in a pass started from `s`
in which the `sizeof(Bloc)` bytes of `p` arrive before the first poll. -/
def handed (p : Nat → Nat) (s : Client) : Mach :=
  { delivered p (FlasherClient.request s).mach with led := false }

/-- Delivery schedule of a run in which pass `i` receives, at once, a well-formed
unflagged block numbered `i` with payload `1, 0, 0, ...`. -/
def goodRx : Nat → Nat → List Nat :=
  fun i => atOnce (blocBytes (sampleBloc i 1 0 samplePayload))

/-! ## Reading of the claims on `cBuff` -/

/-- A `cBuff` of capacity `C` that holds `k` bytes: the end pointer is `C` bytes from the
start, the next-write pointer `k` bytes from the start, the count is `k`; the capacity
fits the `uint16_t` argument of the constructor. -/
def cBuff.Holds (b : cBuff) (C k : Nat) : Prop :=
  b.m_pEndBuff = C ∧ b.m_pNextData = k ∧ b.m_NbData = k ∧ k ≤ C ∧ C < 65536

instance (b : cBuff) (C k : Nat) : Decidable (b.Holds C k) := by
  unfold cBuff.Holds; infer_instance

/-- The bytes a `cBuff` holds: the first `getNbData()` bytes behind `getBuffPtr()`. -/
def cBuff.content (b : cBuff) : List Nat :=
  (List.range b.getNbData).map b.getBuffPtr

/-- A call made on a `cBuff` after its construction. -/
inductive BuffCall where
  | addData (Data : Nat)
  | Clear
deriving Repr, DecidableEq

/-- The buffer after a sequence of calls, together with the number of `addData` calls
that returned `true` since the last `Clear` (or since the start). -/
def cBuff.after : List BuffCall → cBuff × Nat → cBuff × Nat
  | [], s => s
  | BuffCall.addData d :: cs, s =>
    cBuff.after cs ((s.1.addData d).2, if (s.1.addData d).1 = true then s.2 + 1 else s.2)
  | BuffCall.Clear :: cs, s => cBuff.after cs (s.1.Clear, 0)

/-- A machine like `bootMach` whose reception buffer has capacity 4 and holds the two
bytes `10, 11`. -/
def smallMach : Mach :=
  { bootMach with
    ___DataBuff :=
      { m_pStartBuff := fun j => if j = 0 then 10 else if j = 1 then 11 else 0
        m_pEndBuff := 4, m_pNextData := 2, m_NbData := 2 } }

/-- Delivery schedule of one pass: the bytes `buf` during the `V`-th `HAL_Delay(10)`
(before the first poll when `V = 0`), silence otherwise. -/
def lateRx (V : Nat) (buf : List Nat) : Nat → List Nat := fun k => if k = V then buf else []

/-- A client that has just handled block 65534 with success. -/
def afterBloc65534 : Client := { NumBloc := 65534, ResultProcess := true, mach := bootMach }

/-- A flash in which the erase of a sector followed by the write of a full page at its
address leaves every byte outside that sector as it was. -/
def Isolated (P : Platform) : Prop :=
  ∀ (buf : Nat → Nat) (addr : Nat) (flash : Nat → Nat) (x : Nat),
    ¬ (addr ≤ x ∧ x < addr + TAILLE_PAGES_QSPI) →
    P.Write buf addr TAILLE_PAGES_QSPI (P.EraseBlock4K addr flash) x = flash x

/-- Blocks 0, 1, 2 with payload `1, 0, 0, ...`, the flag set on block 2 only. -/
def shortTransfer : Nat → Nat → Nat :=
  fun i => sampleBloc i 1 (if i = 2 then 1 else 0) samplePayload

/-! ## Basic facts -/

theorem sizeofBloc_eq : sizeofBloc = 1036 := by decide

theorem copyFold_fst (p : Nat → Nat) (slot : Nat) (page : Nat → Nat) (k : Nat) :
    ((List.range k).foldl (copyStep p slot) (0, page)).1
      = ((List.range k).map (Bloc.Data p)).sum % 256 := by
  induction k with
  | zero => simp
  | succ k ih =>
    rw [List.range_succ, List.foldl_append, List.map_append, List.sum_append]
    simp only [List.foldl_cons, List.foldl_nil, List.map_cons, List.map_nil, List.sum_cons,
      List.sum_nil, copyStep, ih]
    omega

theorem copyFold_snd (p : Nat → Nat) (slot : Nat) (page : Nat → Nat) (k j : Nat) :
    ((List.range k).foldl (copyStep p slot) (0, page)).2 j
      = if slotOffset slot ≤ j ∧ j < slotOffset slot + k
        then Bloc.Data p (j - slotOffset slot) else page j := by
  induction k with
  | zero =>
    have h : ¬ (slotOffset slot ≤ j ∧ j < slotOffset slot + 0) := by omega
    simp only [h, if_false, List.range_zero, List.foldl_nil]
  | succ k ih =>
    rw [List.range_succ, List.foldl_append]
    simp only [List.foldl_cons, List.foldl_nil, copyStep, ih, slotOffset]
    by_cases h1 : j = slot * TAILLE_BLOC_TRANS + k
    · subst h1
      simp
    · by_cases h2 : slot * TAILLE_BLOC_TRANS ≤ j ∧ j < slot * TAILLE_BLOC_TRANS + k
      · have h3 : slot * TAILLE_BLOC_TRANS ≤ j ∧ j < slot * TAILLE_BLOC_TRANS + (k + 1) :=
          ⟨h2.1, by omega⟩
        simp [h1, h2, h3]
      · have h3 : ¬ (slot * TAILLE_BLOC_TRANS ≤ j ∧ j < slot * TAILLE_BLOC_TRANS + (k + 1)) := by
          omega
        simp [h1, h2, h3]

theorem copyLoop_fst (p : Nat → Nat) (slot : Nat) (page : Nat → Nat) :
    (copyLoop p slot page).1 = payloadSum p % 256 := by
  simp only [copyLoop, payloadSum, copyFold_fst]

theorem copyLoop_snd (p : Nat → Nat) (slot : Nat) (page : Nat → Nat) :
    (copyLoop p slot page).2 = storeSlot p slot page := by
  funext j
  simp only [copyLoop, storeSlot, copyFold_snd]

theorem verifyLoop_iff (page flash : Nat → Nat) (addr : Nat) :
    verifyLoop page flash addr = true ↔
      ∀ i, i < TAILLE_PAGES_QSPI → page i = flash (addr + i) := by
  simp [verifyLoop, List.all_eq_true]

theorem headerInvalid_eq_false_iff (p : Nat → Nat) (n : Nat) :
    headerInvalid p n = false ↔
      (Bloc.StartMarker p 0 = 'B'.toNat ∧ Bloc.StartMarker p 1 = 'L'.toNat ∧
        Bloc.StartMarker p 2 = 'O'.toNat ∧ Bloc.StartMarker p 3 = 'C'.toNat) ∧
      (Bloc.EndMarker p 0 = 'E'.toNat ∧ Bloc.EndMarker p 1 = 'N'.toNat ∧
        Bloc.EndMarker p 2 = 'D'.toNat) ∧
      Bloc.NumBloc p = n := by
  simp only [headerInvalid, Bool.or_eq_false_iff, decide_eq_false_iff_not, not_not, ne_eq]
  constructor
  · rintro ⟨⟨⟨⟨⟨⟨⟨a, b⟩, c⟩, d⟩, e⟩, f⟩, g⟩, h⟩
    exact ⟨⟨a, b, c, d⟩, ⟨e, f, g⟩, h.symm⟩
  · rintro ⟨⟨a, b, c, d⟩, ⟨e, f, g⟩, h⟩
    exact ⟨⟨⟨⟨⟨⟨⟨a, b⟩, c⟩, d⟩, e⟩, f⟩, g⟩, h.symm⟩

theorem validBloc_iff (p : Nat → Nat) (n : Nat) :
    ValidBloc p n ↔ headerInvalid p n = false ∧ payloadSum p % 256 = Bloc._CRC p := by
  rw [headerInvalid_eq_false_iff]
  unfold ValidBloc
  constructor
  · rintro ⟨a, b, c, d⟩
    exact ⟨⟨a, b, c⟩, d⟩
  · rintro ⟨⟨a, b, c⟩, d⟩
    exact ⟨a, b, c, d⟩

theorem BlocProcess_invalid (P : Platform) (n : Nat) (m : Mach)
    (h : headerInvalid m.___DataBuff.getBuffPtr n = true) :
    BlocProcess P n m = (Exit.invalidBlock, m) := by
  simp only [BlocProcess, h, if_true]

theorem BlocProcess_crc (P : Platform) (n : Nat) (m : Mach)
    (h : headerInvalid m.___DataBuff.getBuffPtr n = false)
    (hc : payloadSum m.___DataBuff.getBuffPtr % 256 ≠ Bloc._CRC m.___DataBuff.getBuffPtr) :
    BlocProcess P n m = (Exit.crcMismatch, assembled n m) := by
  simp only [BlocProcess, h, copyLoop_fst, copyLoop_snd, assembled]
  simp [hc]

theorem BlocProcess_pending (P : Platform) (n : Nat) (m : Mach)
    (hv : ValidBloc m.___DataBuff.getBuffPtr n) (hd : ¬ pageDue n m) :
    BlocProcess P n m = (doneExit m, assembled n m) := by
  rw [validBloc_iff] at hv
  unfold pageDue at hd
  simp only [BlocProcess, hv.1, copyLoop_fst, copyLoop_snd, assembled, doneExit]
  simp [hv.2, hd]

theorem BlocProcess_commit (P : Platform) (n : Nat) (m : Mach)
    (hv : ValidBloc m.___DataBuff.getBuffPtr n) (hd : pageDue n m) :
    BlocProcess P n m =
      (if verifyLoop (assembled n m).__PageBuff (committed P n (assembled n m)).flash
            (pageAddr P (n / NB_BLOC_TRANS)) = true
        then doneExit m else Exit.verifyFailed,
       committed P n (assembled n m)) := by
  rw [validBloc_iff] at hv
  unfold pageDue at hd
  simp only [BlocProcess, hv.1, copyLoop_fst, copyLoop_snd, assembled, doneExit, committed,
    pageAddr]
  simp only [hv.2, hd, ne_eq, not_true_eq_false, if_false, if_true, Bool.false_eq_true]
  split <;> rfl

theorem BlocProcess_cases (P : Platform) (n : Nat) (m : Mach) :
    (headerInvalid m.___DataBuff.getBuffPtr n = true ∧
      BlocProcess P n m = (Exit.invalidBlock, m)) ∨
    (headerInvalid m.___DataBuff.getBuffPtr n = false ∧
      payloadSum m.___DataBuff.getBuffPtr % 256 ≠ Bloc._CRC m.___DataBuff.getBuffPtr ∧
      BlocProcess P n m = (Exit.crcMismatch, assembled n m)) ∨
    (ValidBloc m.___DataBuff.getBuffPtr n ∧ ¬ pageDue n m ∧
      BlocProcess P n m = (doneExit m, assembled n m)) ∨
    (ValidBloc m.___DataBuff.getBuffPtr n ∧ pageDue n m ∧
      BlocProcess P n m =
        (if verifyLoop (assembled n m).__PageBuff (committed P n (assembled n m)).flash
              (pageAddr P (n / NB_BLOC_TRANS)) = true
          then doneExit m else Exit.verifyFailed,
         committed P n (assembled n m))) := by
  by_cases h : headerInvalid m.___DataBuff.getBuffPtr n = true
  · exact Or.inl ⟨h, BlocProcess_invalid P n m h⟩
  · have h0 : headerInvalid m.___DataBuff.getBuffPtr n = false := by
      cases hh : headerInvalid m.___DataBuff.getBuffPtr n
      · rfl
      · exact absurd hh h
    by_cases hc : payloadSum m.___DataBuff.getBuffPtr % 256 = Bloc._CRC m.___DataBuff.getBuffPtr
    · have hv : ValidBloc m.___DataBuff.getBuffPtr n := (validBloc_iff _ _).2 ⟨h0, hc⟩
      by_cases hd : pageDue n m
      · exact Or.inr (Or.inr (Or.inr ⟨hv, hd, BlocProcess_commit P n m hv hd⟩))
      · exact Or.inr (Or.inr (Or.inl ⟨hv, hd, BlocProcess_pending P n m hv hd⟩))
    · exact Or.inr (Or.inl ⟨h0, hc, BlocProcess_crc P n m h0 hc⟩)

theorem doneExit_ne_invalid (m : Mach) : doneExit m ≠ Exit.invalidBlock := by
  unfold doneExit; split <;> simp

theorem doneExit_ne_crc (m : Mach) : doneExit m ≠ Exit.crcMismatch := by
  unfold doneExit; split <;> simp

theorem doneExit_ne_verify (m : Mach) : doneExit m ≠ Exit.verifyFailed := by
  unfold doneExit; split <;> simp

/-- A block is rejected by validation exactly when it is not well formed. -/
theorem BlocProcess_rejects_iff (P : Platform) (n : Nat) (m : Mach) :
    ((BlocProcess P n m).1 = Exit.invalidBlock ∨ (BlocProcess P n m).1 = Exit.crcMismatch)
      ↔ ¬ ValidBloc m.___DataBuff.getBuffPtr n := by
  rcases BlocProcess_cases P n m with ⟨h, e⟩ | ⟨h, hc, e⟩ | ⟨hv, _, e⟩ | ⟨hv, _, e⟩
  · rw [e, validBloc_iff]; simp [h]
  · rw [e, validBloc_iff]; simp [h, hc]
  · rw [e]
    simp [doneExit_ne_invalid, doneExit_ne_crc, hv]
  · rw [e]
    have : ¬ ((if verifyLoop (assembled n m).__PageBuff (committed P n (assembled n m)).flash
              (pageAddr P (n / NB_BLOC_TRANS)) = true
          then doneExit m else Exit.verifyFailed) = Exit.invalidBlock ∨
        (if verifyLoop (assembled n m).__PageBuff (committed P n (assembled n m)).flash
              (pageAddr P (n / NB_BLOC_TRANS)) = true
          then doneExit m else Exit.verifyFailed) = Exit.crcMismatch) := by
      split <;> simp [doneExit_ne_invalid, doneExit_ne_crc]
    simp [this, hv]

/-- Without a well-formed block `BlocProcess` returns `false` and leaves the flash and
the list of flash operations as they were. -/
theorem BlocProcess_rejected_flash (P : Platform) (n : Nat) (m : Mach)
    (h : ¬ ValidBloc m.___DataBuff.getBuffPtr n) :
    (BlocProcess P n m).1.ret = false ∧ (BlocProcess P n m).2.flash = m.flash ∧
      (BlocProcess P n m).2.ops = m.ops := by
  rcases BlocProcess_cases P n m with ⟨_, e⟩ | ⟨_, _, e⟩ | ⟨hv, _, _⟩ | ⟨hv, _, _⟩
  · rw [e]; exact ⟨rfl, rfl, rfl⟩
  · rw [e]; exact ⟨rfl, rfl, rfl⟩
  · exact absurd hv h
  · exact absurd hv h

/-- The fields of the machine that `BlocProcess` never touches. -/
theorem BlocProcess_frame (P : Platform) (n : Nat) (m : Mach) :
    (BlocProcess P n m).2.___DataBuff = m.___DataBuff ∧
    (BlocProcess P n m).2.sent = m.sent ∧
    (BlocProcess P n m).2.calls = m.calls ∧
    (BlocProcess P n m).2.led = m.led := by
  rcases BlocProcess_cases P n m with ⟨_, e⟩ | ⟨_, _, e⟩ | ⟨_, _, e⟩ | ⟨_, _, e⟩ <;>
    rw [e] <;> exact ⟨rfl, rfl, rfl, rfl⟩

/-- Page buffer left by `BlocProcess` once the markers and the block number match. -/
theorem BlocProcess_page (P : Platform) (n : Nat) (m : Mach)
    (h : headerInvalid m.___DataBuff.getBuffPtr n = false) :
    (BlocProcess P n m).2.__PageBuff
      = storeSlot m.___DataBuff.getBuffPtr (n % NB_BLOC_TRANS) m.__PageBuff := by
  rcases BlocProcess_cases P n m with ⟨h', _⟩ | ⟨_, _, e⟩ | ⟨_, _, e⟩ | ⟨_, _, e⟩
  · rw [h] at h'; exact absurd h' (by simp)
  · rw [e]; rfl
  · rw [e]; rfl
  · rw [e]; rfl

theorem storeSlot_in (p : Nat → Nat) (slot : Nat) (page : Nat → Nat) (i : Nat)
    (hi : i < TAILLE_BLOC_TRANS) :
    storeSlot p slot page (slot * TAILLE_BLOC_TRANS + i) = Bloc.Data p i := by
  unfold storeSlot slotOffset
  have h : slot * TAILLE_BLOC_TRANS ≤ slot * TAILLE_BLOC_TRANS + i ∧
      slot * TAILLE_BLOC_TRANS + i < slot * TAILLE_BLOC_TRANS + TAILLE_BLOC_TRANS :=
    ⟨Nat.le_add_right _ _, by omega⟩
  rw [if_pos h, Nat.add_sub_cancel_left]

theorem storeSlot_out (p : Nat → Nat) (slot : Nat) (page : Nat → Nat) (j : Nat)
    (hj : ¬ (slot * TAILLE_BLOC_TRANS ≤ j ∧
      j < slot * TAILLE_BLOC_TRANS + TAILLE_BLOC_TRANS)) :
    storeSlot p slot page j = page j := by
  unfold storeSlot slotOffset
  rw [if_neg hj]

theorem accepts_of_valid (P : Platform) (n : Nat) (m : Mach)
    (hv : ValidBloc m.___DataBuff.getBuffPtr n) :
    (BlocProcess P n m).1 ≠ Exit.invalidBlock ∧ (BlocProcess P n m).1 ≠ Exit.crcMismatch := by
  have h := BlocProcess_rejects_iff P n m
  constructor
  · intro h1; exact (h.1 (Or.inl h1)) hv
  · intro h1; exact (h.1 (Or.inr h1)) hv

theorem valid_of_accepts (P : Platform) (n : Nat) (m : Mach)
    (ha : (BlocProcess P n m).1 ≠ Exit.invalidBlock ∧
      (BlocProcess P n m).1 ≠ Exit.crcMismatch) :
    ValidBloc m.___DataBuff.getBuffPtr n := by
  by_contra hv
  rcases (BlocProcess_rejects_iff P n m).2 hv with h1 | h1
  · exact ha.1 h1
  · exact ha.2 h1

/-- Flash operations made by `BlocProcess` on a well-formed block. -/
theorem BlocProcess_valid_ops (P : Platform) (n : Nat) (m : Mach)
    (hv : ValidBloc m.___DataBuff.getBuffPtr n) :
    (pageDue n m ∧
      (BlocProcess P n m).2.ops = m.ops ++ [FlashOp.erase (pageAddr P (n / NB_BLOC_TRANS)),
        FlashOp.write (pageAddr P (n / NB_BLOC_TRANS)) TAILLE_PAGES_QSPI,
        FlashOp.readback (pageAddr P (n / NB_BLOC_TRANS)) TAILLE_PAGES_QSPI] ∧
      (BlocProcess P n m).2.flash =
        P.Write (storeSlot m.___DataBuff.getBuffPtr (n % NB_BLOC_TRANS) m.__PageBuff)
          (pageAddr P (n / NB_BLOC_TRANS)) TAILLE_PAGES_QSPI
          (P.EraseBlock4K (pageAddr P (n / NB_BLOC_TRANS)) m.flash)) ∨
    (¬ pageDue n m ∧ (BlocProcess P n m).2.ops = m.ops ∧
      (BlocProcess P n m).2.flash = m.flash) := by
  rcases BlocProcess_cases P n m with ⟨h, _⟩ | ⟨h, hc, _⟩ | ⟨_, hd, e⟩ | ⟨_, hd, e⟩
  · rw [validBloc_iff, h] at hv; exact absurd hv.1 (by simp)
  · rw [validBloc_iff] at hv; exact absurd hv.2 hc
  · rw [e]; exact Or.inr ⟨hd, rfl, rfl⟩
  · rw [e]; exact Or.inl ⟨hd, rfl, rfl⟩

theorem headerInvalid_of_valid {p : Nat → Nat} {n : Nat} (hv : ValidBloc p n) :
    headerInvalid p n = false :=
  ((validBloc_iff p n).1 hv).1

theorem sum_range_poke (p : Nat → Nat) (i v k : Nat) :
    ((List.range k).map (Bloc.Data (poke p (8 + i) v))).sum + (if i < k then Bloc.Data p i else 0)
      = ((List.range k).map (Bloc.Data p)).sum + (if i < k then v else 0) := by
  induction k with
  | zero => simp
  | succ k ih =>
    rw [List.range_succ, List.map_append, List.map_append, List.sum_append, List.sum_append]
    simp only [List.map_cons, List.map_nil, List.sum_cons, List.sum_nil, Nat.add_zero]
    by_cases h1 : i = k
    · subst h1
      have h2 : ¬ i < i := Nat.lt_irrefl i
      simp only [h2, if_false, Nat.add_zero] at ih
      have h3 : Bloc.Data (poke p (8 + i) v) i = v := by simp [Bloc.Data, poke]
      simp only [Nat.lt_succ_self, if_true, h3, ih]
      omega
    · have h3 : Bloc.Data (poke p (8 + i) v) k = Bloc.Data p k := by
        have : 8 + k ≠ 8 + i := by omega
        simp [Bloc.Data, poke, this]
      rw [h3]
      by_cases h2 : i < k
      · have h4 : i < k + 1 := by omega
        simp only [h2, h4, if_true] at ih ⊢
        omega
      · have h4 : ¬ i < k + 1 := by omega
        simp only [h2, h4, if_false] at ih ⊢
        omega

theorem payloadSum_poke (p : Nat → Nat) (i v : Nat) (hi : i < TAILLE_BLOC_TRANS) :
    payloadSum (poke p (8 + i) v) + Bloc.Data p i = payloadSum p + v := by
  have h := sum_range_poke p i v TAILLE_BLOC_TRANS
  simp only [hi, if_true] at h
  unfold payloadSum
  exact h

theorem headerInvalid_poke (p : Nat → Nat) (n i v : Nat) (hi : i < TAILLE_BLOC_TRANS) :
    headerInvalid (poke p (8 + i) v) n = headerInvalid p n := by
  have hi' : i < 1024 := hi
  have e : ∀ k, k < 8 ∨ 1032 ≤ k → poke p (8 + i) v k = p k := by
    intro k hk
    have : k ≠ 8 + i := by omega
    simp [poke, this]
  simp only [headerInvalid, Bloc.StartMarker, Bloc.EndMarker, Bloc.NumBloc]
  simp only [e 0 (by omega), e 1 (by omega), e 2 (by omega), e 3 (by omega), e 4 (by omega),
    e 5 (by omega), e (1032 + 0) (by omega), e (1032 + 1) (by omega), e (1032 + 2) (by omega)]

theorem pageDue_received (n : Nat) (p : Nat → Nat) (m : Mach) :
    pageDue n (received p m) ↔ (n % NB_BLOC_TRANS = NB_BLOC_TRANS - 1 ∨ Bloc._EndTrans p ≠ 0) :=
  Iff.rfl

/-- A sweep over the first `k ≤ 7` slots of a page, all blocks well formed and unflagged,
makes no flash operation and leaves the flash as it was. -/
theorem sweep_pending (P : Platform) (q : Nat) (blocs : Nat → Nat → Nat) (m : Mach) (k : Nat)
    (hk : k ≤ 7)
    (hv : ∀ i, i < k → ValidBloc (blocs i) (8 * q + i))
    (hflag : ∀ i, i < k → Bloc._EndTrans (blocs i) = 0) :
    (sweep P (8 * q) blocs k m).ops = m.ops ∧ (sweep P (8 * q) blocs k m).flash = m.flash := by
  induction k with
  | zero => exact ⟨rfl, rfl⟩
  | succ k ih =>
    have ih' := ih (by omega) (fun i hi => hv i (by omega)) (fun i hi => hflag i (by omega))
    have hvk : ValidBloc (received (blocs k) (sweep P (8 * q) blocs k m)).___DataBuff.getBuffPtr
        (8 * q + k) := hv k (by omega)
    have hnd : ¬ pageDue (8 * q + k) (received (blocs k) (sweep P (8 * q) blocs k m)) := by
      rw [pageDue_received]
      have h1 : (8 * q + k) % NB_BLOC_TRANS ≠ NB_BLOC_TRANS - 1 := by
        simp only [NB_BLOC_TRANS]; omega
      have h2 := hflag k (by omega)
      simp [h1, h2]
    show (BlocProcess P (8 * q + k) (received (blocs k) (sweep P (8 * q) blocs k m))).2.ops = m.ops ∧
      (BlocProcess P (8 * q + k) (received (blocs k) (sweep P (8 * q) blocs k m))).2.flash = m.flash
    rcases BlocProcess_valid_ops P (8 * q + k) _ hvk with ⟨hd, _⟩ | ⟨_, h1, h2⟩
    · exact absurd hd hnd
    · rw [h1, h2]; exact ih'

/-- After a sweep over the first `k ≤ 8` slots of a page, all blocks well formed, each of
these slots of the page buffer holds the payload of its block. -/
theorem sweep_page (P : Platform) (q : Nat) (blocs : Nat → Nat → Nat) (m : Mach) (k : Nat)
    (hk : k ≤ 8)
    (hv : ∀ i, i < k → ValidBloc (blocs i) (8 * q + i)) :
    ∀ i, i < k → ∀ j, j < TAILLE_BLOC_TRANS →
      (sweep P (8 * q) blocs k m).__PageBuff (i * TAILLE_BLOC_TRANS + j) = Bloc.Data (blocs i) j := by
  induction k with
  | zero => intro i hi; exact absurd hi (Nat.not_lt_zero i)
  | succ k ih =>
    have ih' := ih (by omega) (fun i hi => hv i (by omega))
    intro i hi j hj
    have hvk : ValidBloc (received (blocs k) (sweep P (8 * q) blocs k m)).___DataBuff.getBuffPtr
        (8 * q + k) := hv k (by omega)
    have hslot : (8 * q + k) % NB_BLOC_TRANS = k := by
      simp only [NB_BLOC_TRANS]; omega
    show (BlocProcess P (8 * q + k) (received (blocs k) (sweep P (8 * q) blocs k m))).2.__PageBuff
      (i * TAILLE_BLOC_TRANS + j) = Bloc.Data (blocs i) j
    rw [BlocProcess_page P _ _ (headerInvalid_of_valid hvk), hslot]
    by_cases hik : i = k
    · subst hik
      exact storeSlot_in _ _ _ j hj
    · have hlt : i < k := by omega
      rw [storeSlot_out]
      · exact ih' i hlt j hj
      · have hj' : j < 1024 := hj
        simp only [TAILLE_BLOC_TRANS]
        omega

theorem samplePlatform_faithful : Faithful samplePlatform := by
  intro buf addr len flash i hi
  show (if addr ≤ addr + i ∧ addr + i < addr + len then buf (addr + i - addr) else _) = buf i
  rw [if_pos ⟨Nat.le_add_right _ _, by omega⟩, Nat.add_sub_cancel_left]

/-- On a faithful flash the commit of a well-formed block whose page is due passes the
read-back, and the sector then holds the page buffer. -/
theorem commit_faithful (P : Platform) (hf : Faithful P) (n : Nat) (m : Mach)
    (hv : ValidBloc m.___DataBuff.getBuffPtr n) (hd : pageDue n m) :
    (BlocProcess P n m).1 = doneExit m ∧
    ∀ x, x < TAILLE_PAGES_QSPI →
      (BlocProcess P n m).2.flash (pageAddr P (n / NB_BLOC_TRANS) + x)
        = (BlocProcess P n m).2.__PageBuff x := by
  have hread : ∀ x, x < TAILLE_PAGES_QSPI →
      (committed P n (assembled n m)).flash (pageAddr P (n / NB_BLOC_TRANS) + x)
        = (assembled n m).__PageBuff x := by
    intro x hx
    exact hf _ _ _ _ x hx
  have hver : verifyLoop (assembled n m).__PageBuff (committed P n (assembled n m)).flash
      (pageAddr P (n / NB_BLOC_TRANS)) = true := by
    rw [verifyLoop_iff]
    intro x hx
    exact (hread x hx).symm
  rw [BlocProcess_commit P n m hv hd, if_pos hver]
  exact ⟨rfl, hread⟩

/-! ## Facts on the reception buffer and the wait loop -/

/-- Two machines that differ at most in the reception buffer. -/
theorem UsbCallbackFlasher_frame (buf : List Nat) (m : Mach) :
    (UsbCallbackFlasher buf m).__PageBuff = m.__PageBuff ∧
    (UsbCallbackFlasher buf m).flash = m.flash ∧
    (UsbCallbackFlasher buf m).ops = m.ops ∧
    (UsbCallbackFlasher buf m).sent = m.sent ∧
    (UsbCallbackFlasher buf m).calls = m.calls ∧
    (UsbCallbackFlasher buf m).led = m.led :=
  ⟨rfl, rfl, rfl, rfl, rfl, rfl⟩

theorem atPoll_frame (rx : Nat → List Nat) (m : Mach) (k : Nat) :
    (FlasherClient.atPoll rx m k).__PageBuff = m.__PageBuff ∧
    (FlasherClient.atPoll rx m k).flash = m.flash ∧
    (FlasherClient.atPoll rx m k).ops = m.ops ∧
    (FlasherClient.atPoll rx m k).sent = m.sent ∧
    (FlasherClient.atPoll rx m k).calls = m.calls ∧
    (FlasherClient.atPoll rx m k).led = m.led := by
  induction k with
  | zero => exact UsbCallbackFlasher_frame (rx 0) m
  | succ k ih =>
    have h := UsbCallbackFlasher_frame (rx (k + 1)) (FlasherClient.atPoll rx m k)
    exact ⟨h.1.trans ih.1, h.2.1.trans ih.2.1, h.2.2.1.trans ih.2.2.1,
      h.2.2.2.1.trans ih.2.2.2.1, h.2.2.2.2.1.trans ih.2.2.2.2.1,
      h.2.2.2.2.2.trans ih.2.2.2.2.2⟩

/-- Whenever the wait loop ends, it ends at some poll `t`, on the machine of that poll,
with `TimeOut = t mod 65536`; and either the buffer holds a full block or the counter has
reached the budget. -/
theorem wait_some (P : Platform) (rx : Nat → List Nat) (m0 : Mach) :
    ∀ (fuel k : Nat) (r : Nat × Mach),
      FlasherClient.wait P rx fuel k (k % 65536) (FlasherClient.atPoll rx m0 k) = some r →
      ∃ t, k ≤ t ∧ r = (t % 65536, FlasherClient.atPoll rx m0 t) ∧
        ¬ ((FlasherClient.atPoll rx m0 t).___DataBuff.getNbData < sizeofBloc ∧
          t % 65536 < P.VAL_TIMEOUT) := by
  intro fuel
  induction fuel with
  | zero => intro k r h; simp [FlasherClient.wait] at h
  | succ fuel ih =>
    intro k r h
    unfold FlasherClient.wait at h
    by_cases hc : (FlasherClient.atPoll rx m0 k).___DataBuff.getNbData < sizeofBloc ∧
        k % 65536 < P.VAL_TIMEOUT
    · rw [if_pos hc] at h
      have e : (k % 65536 + 1) % 65536 = (k + 1) % 65536 := by omega
      rw [e] at h
      obtain ⟨t, ht, hr, hn⟩ := ih (k + 1) r h
      exact ⟨t, by omega, hr, hn⟩
    · rw [if_neg hc] at h
      exact ⟨k, Nat.le_refl k, (Option.some.inj h).symm, hc⟩

/-- With a budget that fits the 16-bit counter and enough fuel, the wait loop ends, at
the first poll from `k` on at which the buffer holds a full block or the budget is
reached. -/
theorem wait_ends (P : Platform) (rx : Nat → List Nat) (m0 : Mach)
    (hV : P.VAL_TIMEOUT ≤ 65535) :
    ∀ (fuel k : Nat), k ≤ P.VAL_TIMEOUT → P.VAL_TIMEOUT - k < fuel →
      ∃ t, k ≤ t ∧ t ≤ P.VAL_TIMEOUT ∧
        FlasherClient.wait P rx fuel k k (FlasherClient.atPoll rx m0 k)
          = some (t, FlasherClient.atPoll rx m0 t) ∧
        (∀ j, k ≤ j → j < t →
          (FlasherClient.atPoll rx m0 j).___DataBuff.getNbData < sizeofBloc) ∧
        (t < P.VAL_TIMEOUT →
          sizeofBloc ≤ (FlasherClient.atPoll rx m0 t).___DataBuff.getNbData) := by
  intro fuel
  induction fuel with
  | zero => intro k _ h; exact absurd h (Nat.not_lt_zero _)
  | succ fuel ih =>
    intro k hk hf
    unfold FlasherClient.wait
    by_cases hc : (FlasherClient.atPoll rx m0 k).___DataBuff.getNbData < sizeofBloc ∧
        k < P.VAL_TIMEOUT
    · rw [if_pos hc]
      have e : (k + 1) % 65536 = k + 1 := Nat.mod_eq_of_lt (by omega)
      rw [e]
      obtain ⟨t, ht, htV, hw, hbefore, hafter⟩ := ih (k + 1) (by omega) (by omega)
      refine ⟨t, by omega, htV, hw, ?_, hafter⟩
      intro j hj hjt
      by_cases hjk : j = k
      · subst hjk; exact hc.1
      · exact hbefore j (by omega) hjt
    · rw [if_neg hc]
      refine ⟨k, Nat.le_refl k, hk, rfl, ?_, ?_⟩
      · intro j hj hjt; omega
      · intro hlt
        by_contra hnb
        exact hc ⟨by omega, hlt⟩

/-- Bytes that fit are appended in order: the buffer after `addData` has been applied
to each byte of `buf`, when `buf` fits in the room left and the count does not leave
16 bits. -/
theorem foldl_addData (buf : List Nat) :
    ∀ (b : cBuff), b.m_pNextData + buf.length ≤ b.m_pEndBuff →
      b.m_NbData + buf.length < 65536 →
      buf.foldl (fun b d => (b.addData d).2) b =
        { m_pStartBuff := fun j =>
            if b.m_pNextData ≤ j ∧ j < b.m_pNextData + buf.length
            then buf.getD (j - b.m_pNextData) 0 else b.m_pStartBuff j
          m_pEndBuff := b.m_pEndBuff
          m_pNextData := b.m_pNextData + buf.length
          m_NbData := b.m_NbData + buf.length } := by
  induction buf with
  | nil =>
    intro b _ _
    cases b
    simp only [List.foldl_nil, List.length_nil, Nat.add_zero]
    congr 1
    funext j
    rw [if_neg (by omega)]
  | cons d ds ih =>
    intro b h1 h2
    simp only [List.length_cons] at h1 h2
    have hlt : b.m_pNextData < b.m_pEndBuff := by omega
    have hstep : (b.addData d).2 =
        { m_pStartBuff := fun j => if j = b.m_pNextData then d else b.m_pStartBuff j
          m_pEndBuff := b.m_pEndBuff
          m_pNextData := b.m_pNextData + 1
          m_NbData := b.m_NbData + 1 } := by
      unfold cBuff.addData
      rw [if_pos hlt]
      have e : (b.m_NbData + 1) % 65536 = b.m_NbData + 1 := Nat.mod_eq_of_lt (by omega)
      simp only [e]
    rw [List.foldl_cons, hstep, ih _ (by simp only; omega) (by simp only; omega)]
    simp only [List.length_cons]
    congr 1
    · funext j
      by_cases hj : j = b.m_pNextData
      · subst hj
        have c1 : ¬ (b.m_pNextData + 1 ≤ b.m_pNextData ∧
            b.m_pNextData < b.m_pNextData + 1 + ds.length) := by omega
        have c2 : b.m_pNextData ≤ b.m_pNextData ∧
            b.m_pNextData < b.m_pNextData + (ds.length + 1) := by omega
        rw [if_neg c1, if_pos c2, if_pos rfl, Nat.sub_self, List.getD_cons_zero]
      · by_cases hin : b.m_pNextData + 1 ≤ j ∧ j < b.m_pNextData + 1 + ds.length
        · have c2 : b.m_pNextData ≤ j ∧ j < b.m_pNextData + (ds.length + 1) := by omega
          have e : j - b.m_pNextData = (j - (b.m_pNextData + 1)) + 1 := by omega
          rw [if_pos hin, if_pos c2, e, List.getD_cons_succ]
        · have c2 : ¬ (b.m_pNextData ≤ j ∧ j < b.m_pNextData + (ds.length + 1)) := by omega
          rw [if_neg hin, if_neg c2, if_neg hj]
    · omega
    · omega

theorem getD_map_range (p : Nat → Nat) (L j : Nat) (hj : j < L) :
    ((List.range L).map p).getD j 0 = p j := by
  rw [List.getD_eq_getElem?_getD, List.getElem?_map, List.getElem?_range hj]
  rfl

/-- A delivery of the first `L` bytes of `p` into a cleared buffer with room for them. -/
theorem UsbCallbackFlasher_cleared (p : Nat → Nat) (L : Nat) (m : Mach)
    (hn : m.___DataBuff.m_pNextData = 0) (hc : m.___DataBuff.m_NbData = 0)
    (hroom : L ≤ m.___DataBuff.m_pEndBuff) (hL : L < 65536) :
    (UsbCallbackFlasher ((List.range L).map p) m).___DataBuff =
      { m_pStartBuff := fun j => if j < L then p j else m.___DataBuff.m_pStartBuff j
        m_pEndBuff := m.___DataBuff.m_pEndBuff
        m_pNextData := L
        m_NbData := L } := by
  show ((List.range L).map p).foldl (fun b d => (b.addData d).2) m.___DataBuff = _
  have hlen : ((List.range L).map p).length = L := by simp
  rw [foldl_addData _ _ (by rw [hlen, hn]; omega) (by rw [hlen, hc]; omega), hlen, hn, hc]
  congr 1
  · funext j
    by_cases hj : j < L
    · have c : 0 ≤ j ∧ j < 0 + L := by omega
      rw [if_pos c, if_pos hj, Nat.sub_zero, getD_map_range p L j hj]
    · have c : ¬ (0 ≤ j ∧ j < 0 + L) := by omega
      rw [if_neg c, if_neg hj]
  · omega
  · omega

/-! ## Facts on one pass of the loop -/

theorem request_NumBloc (s : Client) :
    (FlasherClient.request s).NumBloc
      = if s.ResultProcess = false then 0 else (s.NumBloc + 1) % 65536 := rfl

theorem request_sent (s : Client) :
    (FlasherClient.request s).mach.sent
      = s.mach.sent ++ [requestMsg (FlasherClient.request s).NumBloc] := rfl

theorem request_after_failure (s : Client) (h : s.ResultProcess = false) :
    (FlasherClient.request s).NumBloc = 0 ∧
    (FlasherClient.request s).mach.sent = s.mach.sent ++ [requestMsg 0] := by
  have e : (FlasherClient.request s).NumBloc = 0 := by
    rw [request_NumBloc, if_pos h]
  exact ⟨e, by rw [request_sent, e]⟩

theorem process_timeout (P : Platform) (t : Nat) (s : Client) (h : ¬ t < P.VAL_TIMEOUT) :
    FlasherClient.process P t s
      = { s with ResultProcess := false, mach := { s.mach with led := !s.mach.led } } := by
  unfold FlasherClient.process
  rw [if_neg h]

theorem process_block (P : Platform) (t : Nat) (s : Client) (h : t < P.VAL_TIMEOUT) :
    FlasherClient.process P t s
      = { s with
          ResultProcess := (BlocProcess P s.NumBloc { s.mach with led := false }).1.ret
          mach := { (BlocProcess P s.NumBloc { s.mach with led := false }).2 with
            calls := s.mach.calls ++
              [{ NumBloc := s.NumBloc, NbData := s.mach.___DataBuff.getNbData,
                 exit := (BlocProcess P s.NumBloc { s.mach with led := false }).1 }] } } := by
  unfold FlasherClient.process
  rw [if_pos h]
  have hf := (BlocProcess_frame P s.NumBloc { s.mach with led := false }).2.2.1
  simp only [hf]

/-- Shape of a pass that ends: it ends the wait at some poll `t`, and then handles the
machine of that poll. -/
theorem iteration_some (P : Platform) (fuel : Nat) (rx : Nat → List Nat) (s s' : Client)
    (h : FlasherClient.iteration P fuel rx s = some s') :
    ∃ t,
      ¬ ((FlasherClient.atPoll rx (FlasherClient.request s).mach t).___DataBuff.getNbData
            < sizeofBloc ∧ t % 65536 < P.VAL_TIMEOUT) ∧
      s' = FlasherClient.process P (t % 65536)
        { FlasherClient.request s with
          mach := FlasherClient.atPoll rx (FlasherClient.request s).mach t } := by
  unfold FlasherClient.iteration at h
  cases hw : FlasherClient.wait P rx fuel 0 0
      (UsbCallbackFlasher (rx 0) (FlasherClient.request s).mach) with
  | none => simp only [hw] at h; exact absurd h (by simp)
  | some r =>
    simp only [hw] at h
    obtain ⟨t, _, hr, hn⟩ := wait_some P rx (FlasherClient.request s).mach fuel 0 r hw
    refine ⟨t, hn, ?_⟩
    rw [hr] at h
    exact (Option.some.inj h).symm

/-- What a pass that ends leaves behind: either a timeout, with nothing but the buffer,
the request log and the pin changed, or one call of `BlocProcess` on a buffer that holds
a full block. -/
theorem iteration_cases (P : Platform) (fuel : Nat) (rx : Nat → List Nat) (s s' : Client)
    (h : FlasherClient.iteration P fuel rx s = some s') :
    s'.NumBloc = (FlasherClient.request s).NumBloc ∧
    s'.mach.sent = s.mach.sent ++ [requestMsg (FlasherClient.request s).NumBloc] ∧
    ((s'.ResultProcess = false ∧ s'.mach.calls = s.mach.calls ∧
        s'.mach.__PageBuff = s.mach.__PageBuff ∧ s'.mach.flash = s.mach.flash ∧
        s'.mach.ops = s.mach.ops) ∨
     (∃ t c, s'.mach.calls = s.mach.calls ++ [c] ∧ s'.ResultProcess = c.exit.ret ∧
        c.NumBloc = (FlasherClient.request s).NumBloc ∧
        c.NbData = (FlasherClient.atPoll rx (FlasherClient.request s).mach t).___DataBuff.getNbData ∧
        sizeofBloc ≤ c.NbData ∧
        c.exit = (BlocProcess P (FlasherClient.request s).NumBloc
          { FlasherClient.atPoll rx (FlasherClient.request s).mach t with led := false }).1 ∧
        s'.mach.___DataBuff = (FlasherClient.atPoll rx (FlasherClient.request s).mach t).___DataBuff)) := by
  obtain ⟨t, hn, hs⟩ := iteration_some P fuel rx s s' h
  have hfr := atPoll_frame rx (FlasherClient.request s).mach t
  by_cases ht : t % 65536 < P.VAL_TIMEOUT
  · rw [process_block P _ _ ht] at hs
    have hbf := BlocProcess_frame P (FlasherClient.request s).NumBloc
      { FlasherClient.atPoll rx (FlasherClient.request s).mach t with led := false }
    refine ⟨by rw [hs], ?_, Or.inr ⟨t,
      { NumBloc := (FlasherClient.request s).NumBloc
        NbData := (FlasherClient.atPoll rx (FlasherClient.request s).mach t).___DataBuff.getNbData
        exit := (BlocProcess P (FlasherClient.request s).NumBloc
          { FlasherClient.atPoll rx (FlasherClient.request s).mach t with led := false }).1 },
      ?_, ?_, rfl, rfl, ?_, rfl, ?_⟩⟩
    · rw [hs]
      show (BlocProcess P _ _).2.sent = _
      rw [hbf.2.1]
      exact hfr.2.2.2.1
    · rw [hs]
      show (FlasherClient.atPoll rx (FlasherClient.request s).mach t).calls ++ _ = _
      rw [hfr.2.2.2.2.1]
      rfl
    · rw [hs]
    · show sizeofBloc ≤ (FlasherClient.atPoll rx (FlasherClient.request s).mach t).___DataBuff.getNbData
      by_contra hlt
      exact hn ⟨by omega, ht⟩
    · rw [hs]
      exact hbf.1
  · rw [process_timeout P _ _ ht] at hs
    refine ⟨by rw [hs], ?_, Or.inl ⟨by rw [hs], ?_, ?_, ?_, ?_⟩⟩
    · rw [hs]; exact hfr.2.2.2.1
    · rw [hs]; exact hfr.2.2.2.2.1
    · rw [hs]; exact hfr.1
    · rw [hs]; exact hfr.2.1
    · rw [hs]; exact hfr.2.2.1

/-- A pass in which no poll sees a full block ends in the timeout branch. -/
theorem iteration_timeout (P : Platform) (fuel : Nat) (rx : Nat → List Nat) (s : Client)
    (hV : P.VAL_TIMEOUT ≤ 65535) (hfuel : P.VAL_TIMEOUT < fuel)
    (hquiet : ∀ k, k ≤ P.VAL_TIMEOUT →
      (FlasherClient.atPoll rx (FlasherClient.request s).mach k).___DataBuff.getNbData
        < sizeofBloc) :
    FlasherClient.iteration P fuel rx s = some
      { NumBloc := (FlasherClient.request s).NumBloc
        ResultProcess := false
        mach := { FlasherClient.atPoll rx (FlasherClient.request s).mach P.VAL_TIMEOUT with
          led := !(FlasherClient.atPoll rx (FlasherClient.request s).mach P.VAL_TIMEOUT).led } } := by
  obtain ⟨t, _, htV, hw, _, hafter⟩ :=
    wait_ends P rx (FlasherClient.request s).mach hV fuel 0 (Nat.zero_le _) (by omega)
  have ht : t = P.VAL_TIMEOUT := by
    by_contra hne
    have hlt : t < P.VAL_TIMEOUT := by omega
    have := hafter hlt
    have := hquiet t htV
    omega
  subst ht
  unfold FlasherClient.iteration
  have hw' : FlasherClient.wait P rx fuel 0 0
      (UsbCallbackFlasher (rx 0) (FlasherClient.request s).mach)
      = some (P.VAL_TIMEOUT, FlasherClient.atPoll rx (FlasherClient.request s).mach P.VAL_TIMEOUT) := hw
  simp only [hw']
  rw [process_timeout P _ _ (Nat.lt_irrefl _)]

/-- With a budget that fits the 16-bit counter and enough fuel, every pass ends. -/
theorem iteration_ends (P : Platform) (fuel : Nat) (rx : Nat → List Nat) (s : Client)
    (hV : P.VAL_TIMEOUT ≤ 65535) (hfuel : P.VAL_TIMEOUT < fuel) :
    ∃ s', FlasherClient.iteration P fuel rx s = some s' := by
  obtain ⟨t, _, _, hw, _, _⟩ :=
    wait_ends P rx (FlasherClient.request s).mach hV fuel 0 (Nat.zero_le _) (by omega)
  unfold FlasherClient.iteration
  have hw' : FlasherClient.wait P rx fuel 0 0
      (UsbCallbackFlasher (rx 0) (FlasherClient.request s).mach)
      = some (t, FlasherClient.atPoll rx (FlasherClient.request s).mach t) := hw
  simp only [hw']
  exact ⟨_, rfl⟩

theorem atPoll_atOnce (buf : List Nat) (m : Mach) (k : Nat) :
    FlasherClient.atPoll (atOnce buf) m k = UsbCallbackFlasher buf m := by
  induction k with
  | zero => rfl
  | succ k ih =>
    show UsbCallbackFlasher (atOnce buf (k + 1)) (FlasherClient.atPoll (atOnce buf) m k) = _
    rw [ih]
    rfl

theorem atPoll_silence (m : Mach) (k : Nat) : FlasherClient.atPoll silence m k = m := by
  induction k with
  | zero => rfl
  | succ k ih =>
    show UsbCallbackFlasher [] (FlasherClient.atPoll silence m k) = m
    rw [ih]
    rfl

theorem UsbCallbackFlasher_eta (buf : List Nat) (m : Mach) :
    UsbCallbackFlasher buf m
      = { m with ___DataBuff := (UsbCallbackFlasher buf m).___DataBuff } := rfl

theorem UsbCallbackFlasher_blocBytes (p : Nat → Nat) (s : Client)
    (hroom : sizeofBloc ≤ s.mach.___DataBuff.m_pEndBuff) :
    UsbCallbackFlasher (blocBytes p) (FlasherClient.request s).mach
      = delivered p (FlasherClient.request s).mach := by
  have h : (UsbCallbackFlasher (blocBytes p) (FlasherClient.request s).mach).___DataBuff = _ :=
    UsbCallbackFlasher_cleared p sizeofBloc (FlasherClient.request s).mach rfl rfl hroom
      (by rw [sizeofBloc_eq]; omega)
  rw [UsbCallbackFlasher_eta, h]
  rfl

/-- A pass in which one full block arrives before the first poll handles that block. -/
theorem iteration_delivered (P : Platform) (fuel : Nat) (hfuel : 0 < fuel) (s : Client)
    (p : Nat → Nat) (hroom : sizeofBloc ≤ s.mach.___DataBuff.m_pEndBuff) :
    FlasherClient.iteration P fuel (atOnce (blocBytes p)) s = some
      (FlasherClient.process P 0
        { FlasherClient.request s with mach := delivered p (FlasherClient.request s).mach }) := by
  obtain ⟨f, rfl⟩ : ∃ f, fuel = f + 1 := ⟨fuel - 1, by omega⟩
  unfold FlasherClient.iteration
  have e : UsbCallbackFlasher (atOnce (blocBytes p) 0) (FlasherClient.request s).mach
      = delivered p (FlasherClient.request s).mach := UsbCallbackFlasher_blocBytes p s hroom
  simp only [e]
  have hw : FlasherClient.wait P (atOnce (blocBytes p)) (f + 1) 0 0
      (delivered p (FlasherClient.request s).mach)
      = some (0, delivered p (FlasherClient.request s).mach) := by
    unfold FlasherClient.wait
    have hn : ¬ ((delivered p (FlasherClient.request s).mach).___DataBuff.getNbData < sizeofBloc ∧
        0 < P.VAL_TIMEOUT) := by
      intro h
      exact Nat.lt_irrefl _ h.1
    rw [if_neg hn]
  simp only [hw]

/-- A pass in which nothing arrives ends in the timeout branch. -/
theorem iteration_silence (P : Platform) (fuel : Nat) (s : Client)
    (hV : P.VAL_TIMEOUT ≤ 65535) (hfuel : P.VAL_TIMEOUT < fuel) :
    FlasherClient.iteration P fuel silence s = some
      { NumBloc := (FlasherClient.request s).NumBloc
        ResultProcess := false
        mach := { (FlasherClient.request s).mach with led := !(FlasherClient.request s).mach.led } } := by
  have h := iteration_timeout P fuel silence s hV hfuel (by
    intro k _
    rw [atPoll_silence]
    show 0 < sizeofBloc
    rw [sizeofBloc_eq]
    omega)
  rw [h, atPoll_silence]

theorem run_zero (P : Platform) (fuel : Nat) (rx : Nat → Nat → List Nat) (s : Client) :
    FlasherClient P fuel rx 0 s = some s := rfl

theorem goodRx_def (i : Nat) :
    goodRx i = atOnce (blocBytes (sampleBloc i 1 0 samplePayload)) := rfl

theorem run_succ (P : Platform) (fuel : Nat) (rx : Nat → Nat → List Nat) (n : Nat) (s : Client) :
    FlasherClient P fuel rx (n + 1) s
      = (FlasherClient P fuel rx n s).bind (FlasherClient.iteration P fuel (rx n)) := rfl

/-- Every call of `BlocProcess` made during a run saw a full block in the buffer. -/
theorem run_calls (P : Platform) (fuel : Nat) (rx : Nat → Nat → List Nat) (s0 : Client) :
    ∀ (n : Nat) (s' : Client), FlasherClient P fuel rx n s0 = some s' →
      ∀ c, c ∈ s'.mach.calls → c ∈ s0.mach.calls ∨ sizeofBloc ≤ c.NbData := by
  intro n
  induction n with
  | zero =>
    intro s' h c hc
    have e : s0 = s' := Option.some.inj h
    subst e
    exact Or.inl hc
  | succ n ih =>
    intro s' h c hc
    rw [run_succ] at h
    obtain ⟨s1, h1, h2⟩ := Option.bind_eq_some.1 h
    rcases (iteration_cases P fuel (rx n) s1 s' h2).2.2 with ⟨_, hcalls, _⟩ | ⟨t, c', hcalls, _, _, _, hnb, _⟩
    · rw [hcalls] at hc
      exact ih s1 h1 c hc
    · rw [hcalls] at hc
      rcases List.mem_append.1 hc with hc1 | hc1
      · exact ih s1 h1 c hc1
      · have : c = c' := by simpa using hc1
        subst this
        exact Or.inr hnb

/-- A single differing byte makes the commit of a well-formed block fail its
read-back. -/
theorem commit_verify_fails (P : Platform) (n : Nat) (m : Mach)
    (hv : ValidBloc m.___DataBuff.getBuffPtr n) (hd : pageDue n m) (i : Nat)
    (hi : i < TAILLE_PAGES_QSPI)
    (hne : (assembled n m).__PageBuff i
      ≠ (committed P n (assembled n m)).flash (pageAddr P (n / NB_BLOC_TRANS) + i)) :
    (BlocProcess P n m).1 = Exit.verifyFailed := by
  have hver : ¬ verifyLoop (assembled n m).__PageBuff (committed P n (assembled n m)).flash
      (pageAddr P (n / NB_BLOC_TRANS)) = true := by
    rw [verifyLoop_iff]
    intro h
    exact hne (h i hi)
  rw [BlocProcess_commit P n m hv hd, if_neg hver]

/-- The pass that handles one block delivered at once: the call it records. -/
theorem iteration_delivered_call (P : Platform) (fuel : Nat) (hfuel : 0 < fuel) (s : Client)
    (p : Nat → Nat)
    (hroom : sizeofBloc ≤ s.mach.___DataBuff.m_pEndBuff) (hV : 0 < P.VAL_TIMEOUT) :
    ∃ s' c, FlasherClient.iteration P fuel (atOnce (blocBytes p)) s = some s' ∧
      s'.mach.calls = s.mach.calls ++ [c] ∧
      c.NumBloc = (FlasherClient.request s).NumBloc ∧
      c.exit = (BlocProcess P (FlasherClient.request s).NumBloc (handed p s)).1 ∧
      s'.ResultProcess = c.exit.ret ∧
      s'.NumBloc = (FlasherClient.request s).NumBloc ∧
      s'.mach.sent = s.mach.sent ++ [requestMsg (FlasherClient.request s).NumBloc] ∧
      s'.mach.___DataBuff.m_pEndBuff = s.mach.___DataBuff.m_pEndBuff := by
  refine ⟨_, Call.mk (FlasherClient.request s).NumBloc sizeofBloc
      (BlocProcess P (FlasherClient.request s).NumBloc (handed p s)).1,
    iteration_delivered P fuel hfuel s p hroom, ?_, rfl, rfl, ?_, ?_, ?_, ?_⟩
  · rw [process_block P 0 _ hV]; rfl
  · rw [process_block P 0 _ hV]; rfl
  · rw [process_block P 0 _ hV]
  · rw [process_block P 0 _ hV]
    show (BlocProcess P _ _).2.sent = _
    rw [(BlocProcess_frame P _ _).2.1]
    rfl
  · rw [process_block P 0 _ hV]
    show (BlocProcess P _ _).2.___DataBuff.m_pEndBuff = _
    rw [(BlocProcess_frame P _ _).1]
    rfl

theorem bootMach_room : sizeofBloc ≤ bootMach.___DataBuff.m_pEndBuff := by decide

/-- The exit "End of transmission" is taken exactly by a well-formed, flagged block whose
page passed the read-back. -/
theorem exit_endOfTransmission_iff (P : Platform) (n : Nat) (m : Mach) :
    (BlocProcess P n m).1 = Exit.endOfTransmission ↔
      ValidBloc m.___DataBuff.getBuffPtr n ∧ Bloc._EndTrans m.___DataBuff.getBuffPtr ≠ 0 ∧
      verifyLoop (BlocProcess P n m).2.__PageBuff (BlocProcess P n m).2.flash
        (pageAddr P (n / NB_BLOC_TRANS)) = true := by
  rcases BlocProcess_cases P n m with ⟨h, e⟩ | ⟨h, hc, e⟩ | ⟨hv, hd, e⟩ | ⟨hv, hd, e⟩
  · rw [e, validBloc_iff, h]; simp
  · rw [e, validBloc_iff]
    constructor
    · intro h1; exact absurd h1 (by simp)
    · intro h1; exact absurd h1.1.2 hc
  · rw [e]
    have hf : ¬ Bloc._EndTrans m.___DataBuff.getBuffPtr ≠ 0 := fun h => hd (Or.inr h)
    constructor
    · intro h1
      unfold doneExit at h1
      rw [if_neg hf] at h1
      exact absurd h1 (by simp)
    · intro h1; exact absurd h1.2.1 hf
  · rw [e]
    show (if verifyLoop (assembled n m).__PageBuff (committed P n (assembled n m)).flash
        (pageAddr P (n / NB_BLOC_TRANS)) = true then doneExit m else Exit.verifyFailed)
        = Exit.endOfTransmission ↔
      ValidBloc m.___DataBuff.getBuffPtr n ∧ Bloc._EndTrans m.___DataBuff.getBuffPtr ≠ 0 ∧
      verifyLoop (assembled n m).__PageBuff (committed P n (assembled n m)).flash
        (pageAddr P (n / NB_BLOC_TRANS)) = true
    by_cases hver : verifyLoop (assembled n m).__PageBuff (committed P n (assembled n m)).flash
        (pageAddr P (n / NB_BLOC_TRANS)) = true
    · rw [if_pos hver]
      unfold doneExit
      by_cases hf : Bloc._EndTrans m.___DataBuff.getBuffPtr ≠ 0
      · rw [if_pos hf]; exact ⟨fun _ => ⟨hv, hf, hver⟩, fun _ => rfl⟩
      · rw [if_neg hf]
        constructor
        · intro h1; exact absurd h1 (by simp)
        · intro h1; exact absurd h1.2.1 hf
    · rw [if_neg hver]
      constructor
      · intro h1; exact absurd h1 (by simp)
      · intro h1; exact absurd h1.2.2 hver

/-- On the sample platform, from power-on, the flagged block 0 delivered at once is
handled through the exit "End of transmission". -/
theorem sample_last_bloc :
    ∃ s1 c, FlasherClient.iteration samplePlatform 4 (atOnce (blocBytes lastBloc0))
        (FlasherClient.entry bootMach) = some s1 ∧
      s1.mach.calls = (FlasherClient.entry bootMach).mach.calls ++ [c] ∧
      c.exit = Exit.endOfTransmission ∧ s1.mach.sent = [requestMsg 0] := by
  obtain ⟨s1, c, hit, hcall, _, hce, _, _, hsent, _⟩ :=
    iteration_delivered_call samplePlatform 4 (by decide) (FlasherClient.entry bootMach) lastBloc0
      bootMach_room (by decide)
  have hv : ValidBloc (handed lastBloc0 (FlasherClient.entry bootMach)).___DataBuff.getBuffPtr
      (FlasherClient.request (FlasherClient.entry bootMach)).NumBloc := by decide!
  have hd : pageDue (FlasherClient.request (FlasherClient.entry bootMach)).NumBloc
      (handed lastBloc0 (FlasherClient.entry bootMach)) := by decide!
  have hdone : doneExit (handed lastBloc0 (FlasherClient.entry bootMach))
      = Exit.endOfTransmission := by decide!
  have hexit : c.exit = Exit.endOfTransmission :=
    hce.trans ((commit_faithful samplePlatform samplePlatform_faithful _ _ hv hd).1.trans hdone)
  exact ⟨s1, c, hit, hcall, hexit, hsent⟩

/-! ## A run of well-formed blocks -/

theorem payloadSum_congr (p q : Nat → Nat)
    (h : ∀ i, i < TAILLE_BLOC_TRANS → Bloc.Data p i = Bloc.Data q i) :
    payloadSum p = payloadSum q := by
  unfold payloadSum
  exact congrArg List.sum (List.map_congr_left (fun i hi => h i (List.mem_range.1 hi)))

theorem validBloc_congr (p q : Nat → Nat) (n : Nat)
    (h : ∀ j, j < sizeofBloc → p j = q j) (hv : ValidBloc p n) : ValidBloc q n := by
  have e : ∀ j, j < 1036 → q j = p j := by
    intro j hj
    exact (h j (by rw [sizeofBloc_eq]; exact hj)).symm
  have hs : payloadSum q = payloadSum p := by
    apply payloadSum_congr
    intro i hi
    have hi' : i < 1024 := hi
    exact e (8 + i) (by omega)
  unfold ValidBloc at hv ⊢
  simp only [Bloc.StartMarker, Bloc.EndMarker, Bloc.NumBloc, Bloc._CRC] at hv ⊢
  rw [hs, e 0 (by omega), e 1 (by omega), e 2 (by omega), e 3 (by omega), e 4 (by omega),
    e 5 (by omega), e 6 (by omega), e (1032 + 0) (by omega), e (1032 + 1) (by omega),
    e (1032 + 2) (by omega)]
  exact hv

theorem sampleBloc_valid (n : Nat) : ValidBloc (sampleBloc n 1 0 samplePayload) n := by
  have hs : payloadSum (sampleBloc n 1 0 samplePayload)
      = payloadSum (sampleBloc 0 1 0 samplePayload) := by
    apply payloadSum_congr
    intro i hi
    have hi' : i < 1024 := hi
    have h1 : ¬ 8 + i < 4 := by omega
    have h2 : ¬ 8 + i = 4 := by omega
    have h3 : ¬ 8 + i = 5 := by omega
    simp only [Bloc.Data, sampleBloc, h1, h2, h3, if_false]
  have h0 : payloadSum (sampleBloc 0 1 0 samplePayload) % 256 = 1 := by decide!
  refine ⟨⟨rfl, rfl, rfl, rfl⟩, ⟨rfl, rfl, rfl⟩, ?_, ?_⟩
  · show n % 256 + 256 * (n / 256) = n
    omega
  · rw [hs, h0]
    rfl

theorem handed_valid (p : Nat → Nat) (s : Client) (n : Nat) (hv : ValidBloc p n) :
    ValidBloc (handed p s).___DataBuff.getBuffPtr n := by
  apply validBloc_congr p _ n _ hv
  intro j hj
  show p j = if j < sizeofBloc then p j else _
  rw [if_pos hj]

theorem handed_flag (p : Nat → Nat) (s : Client) :
    Bloc._EndTrans (handed p s).___DataBuff.getBuffPtr = Bloc._EndTrans p := by
  have h7 : (7 : Nat) < sizeofBloc := by rw [sizeofBloc_eq]; omega
  simp only [handed, delivered, Bloc._EndTrans, cBuff.getBuffPtr, h7, if_true]

/-- On a faithful flash, a pass that receives at once a well-formed unflagged block with
the requested number ends with `ResultProcess = true`. -/
theorem iteration_good (P : Platform) (hf : Faithful P) (hV : 0 < P.VAL_TIMEOUT) (fuel : Nat)
    (hfuel : 0 < fuel)
    (s : Client) (p : Nat → Nat) (hroom : sizeofBloc ≤ s.mach.___DataBuff.m_pEndBuff)
    (hv : ValidBloc p (FlasherClient.request s).NumBloc) (hflag : Bloc._EndTrans p = 0) :
    ∃ s' c, FlasherClient.iteration P fuel (atOnce (blocBytes p)) s = some s' ∧
      s'.mach.calls = s.mach.calls ++ [c] ∧ c.exit = Exit.continueProcessing ∧
      s'.NumBloc = (FlasherClient.request s).NumBloc ∧ s'.ResultProcess = true ∧
      sizeofBloc ≤ s'.mach.___DataBuff.m_pEndBuff := by
  obtain ⟨s', c, hit, hcall, _, hce, hres, hn, _, hend⟩ :=
    iteration_delivered_call P fuel hfuel s p hroom hV
  have hv' := handed_valid p s _ hv
  have hdone : doneExit (handed p s) = Exit.continueProcessing := by
    unfold doneExit
    rw [handed_flag, hflag]
    rfl
  have hexit : c.exit = Exit.continueProcessing := by
    rw [hce]
    by_cases hd : pageDue (FlasherClient.request s).NumBloc (handed p s)
    · rw [(commit_faithful P hf _ _ hv' hd).1, hdone]
    · rw [BlocProcess_pending P _ _ hv' hd, hdone]
  refine ⟨s', c, hit, hcall, hexit, hn, ?_, by rw [hend]; exact hroom⟩
  rw [hres, hexit]
  rfl

/-- From power-on on the sample platform, `n + 1` passes that each receive the block they
requested leave the counter at `n`, for every `n` up to 65535. -/
theorem run_good (n : Nat) (hn : n < 65536) :
    ∃ s, FlasherClient samplePlatform 4 goodRx (n + 1) (FlasherClient.entry bootMach) = some s ∧
      s.NumBloc = n ∧ s.ResultProcess = true ∧
      sizeofBloc ≤ s.mach.___DataBuff.m_pEndBuff := by
  induction n with
  | zero =>
    obtain ⟨s', _, hit, _, _, hnum, hres, hroom⟩ :=
      iteration_good samplePlatform samplePlatform_faithful (by decide) 4 (by decide)
        (FlasherClient.entry bootMach) (sampleBloc 0 1 0 samplePayload) bootMach_room
        (sampleBloc_valid 0) rfl
    refine ⟨s', ?_, hnum, hres, hroom⟩
    rw [run_succ, run_zero, Option.some_bind, goodRx_def]
    exact hit
  | succ n ih =>
    obtain ⟨s, hrun, hnum, hres, hroom⟩ := ih (by omega)
    have hreq : (FlasherClient.request s).NumBloc = n + 1 := by
      rw [request_NumBloc, hres, hnum]
      have : (n + 1) % 65536 = n + 1 := Nat.mod_eq_of_lt hn
      simp [this]
    have hv : ValidBloc (sampleBloc (n + 1) 1 0 samplePayload) (FlasherClient.request s).NumBloc := by
      rw [hreq]
      exact sampleBloc_valid (n + 1)
    obtain ⟨s', _, hit, _, _, hnum', hres', hroom'⟩ :=
      iteration_good samplePlatform samplePlatform_faithful (by decide) 4 (by decide) s
        (sampleBloc (n + 1) 1 0 samplePayload) hroom hv rfl
    refine ⟨s', ?_, by rw [hnum', hreq], hres', hroom'⟩
    rw [run_succ, hrun, Option.some_bind, goodRx_def]
    exact hit

/-- The exit "Continue processing" is taken only by a well-formed, unflagged block. -/
theorem exit_continue_imp (P : Platform) (n : Nat) (m : Mach)
    (h : (BlocProcess P n m).1 = Exit.continueProcessing) :
    ValidBloc m.___DataBuff.getBuffPtr n ∧ Bloc._EndTrans m.___DataBuff.getBuffPtr = 0 := by
  have hflag : doneExit m = Exit.continueProcessing →
      Bloc._EndTrans m.___DataBuff.getBuffPtr = 0 := by
    intro hd
    unfold doneExit at hd
    by_cases hf : Bloc._EndTrans m.___DataBuff.getBuffPtr ≠ 0
    · rw [if_pos hf] at hd; exact absurd hd (by simp)
    · exact not_not.1 hf
  rcases BlocProcess_cases P n m with ⟨_, e⟩ | ⟨_, _, e⟩ | ⟨hv, _, e⟩ | ⟨hv, _, e⟩
  · rw [e] at h; exact absurd h (by simp)
  · rw [e] at h; exact absurd h (by simp)
  · rw [e] at h; exact ⟨hv, hflag h⟩
  · rw [e] at h
    by_cases hver : verifyLoop (assembled n m).__PageBuff (committed P n (assembled n m)).flash
        (pageAddr P (n / NB_BLOC_TRANS)) = true
    · rw [if_pos hver] at h; exact ⟨hv, hflag h⟩
    · rw [if_neg hver] at h; exact absurd h (by simp)

/-! ## Claims on `BlocProcess` -/

/-- C1: `BlocProcess(n)` accepts the block, that is, leaves by none of its two validation
exits, if and only if the start marker is `BLOC`, the end marker is `END`, the embedded
number equals `n` and the payload sum modulo 256 equals the checksum byte; in every other
case it returns `false` and neither the flash nor the list of flash operations changes. -/
theorem C1_BlocProcess_accepts_iff (P : Platform) (n : Nat) (m : Mach) :
    (((BlocProcess P n m).1 ≠ Exit.invalidBlock ∧ (BlocProcess P n m).1 ≠ Exit.crcMismatch)
        ↔ ValidBloc m.___DataBuff.getBuffPtr n) ∧
    (ValidBloc m.___DataBuff.getBuffPtr n ∨
      ((BlocProcess P n m).1.ret = false ∧ (BlocProcess P n m).2.flash = m.flash ∧
        (BlocProcess P n m).2.ops = m.ops)) := by
  constructor
  · have h := BlocProcess_rejects_iff P n m
    constructor
    · intro ha
      by_contra hv
      rcases h.2 hv with h1 | h1
      · exact ha.1 h1
      · exact ha.2 h1
    · intro hv
      constructor
      · intro h1; exact (h.1 (Or.inl h1)) hv
      · intro h1; exact (h.1 (Or.inr h1)) hv
  · by_cases hv : ValidBloc m.___DataBuff.getBuffPtr n
    · exact Or.inl hv
    · exact Or.inr (BlocProcess_rejected_flash P n m hv)

/-- C6: for a block that passes validation with number `n`, after `BlocProcess` the
1024 bytes of the page buffer from offset `(n mod 8) * 1024` are the payload of the
block, and every byte of the page buffer outside that slot is as before the call. -/
theorem C6_BlocProcess_stores_slot (P : Platform) (n : Nat) (m : Mach)
    (hv : ValidBloc m.___DataBuff.getBuffPtr n) :
    (∀ i, i < TAILLE_BLOC_TRANS →
      (BlocProcess P n m).2.__PageBuff (n % NB_BLOC_TRANS * TAILLE_BLOC_TRANS + i)
        = Bloc.Data m.___DataBuff.getBuffPtr i) ∧
    (∀ j, ¬ (n % NB_BLOC_TRANS * TAILLE_BLOC_TRANS ≤ j ∧
        j < n % NB_BLOC_TRANS * TAILLE_BLOC_TRANS + TAILLE_BLOC_TRANS) →
      (BlocProcess P n m).2.__PageBuff j = m.__PageBuff j) := by
  rw [BlocProcess_page P n m (headerInvalid_of_valid hv)]
  exact ⟨fun i hi => storeSlot_in _ _ _ i hi, fun j hj => storeSlot_out _ _ _ j hj⟩

/-- C6 at block number 11 (slot 3), payload `1, 0, 0, ...`. -/
theorem C6_witness :
    ValidBloc (sampleMach (sampleBloc 11 1 0 samplePayload)).___DataBuff.getBuffPtr 11 ∧
    (BlocProcess samplePlatform 11 (sampleMach (sampleBloc 11 1 0 samplePayload))).2.__PageBuff
      (11 % NB_BLOC_TRANS * TAILLE_BLOC_TRANS + 0) = 1 ∧
    (BlocProcess samplePlatform 11 (sampleMach (sampleBloc 11 1 0 samplePayload))).2.__PageBuff 0
      = 0 :=
  ⟨by decide!,
   (C6_BlocProcess_stores_slot samplePlatform 11
      (sampleMach (sampleBloc 11 1 0 samplePayload)) (by decide!)).1 0 (by decide),
   (C6_BlocProcess_stores_slot samplePlatform 11
      (sampleMach (sampleBloc 11 1 0 samplePayload)) (by decide!)).2 0 (by decide)⟩

/-- C8: when `BlocProcess` accepts a block for `n`, the block obtained by replacing one
payload byte by a different byte value, everything else untouched, is rejected for `n`
at the checksum test. -/
theorem C8_single_byte_change_rejected (P : Platform) (n : Nat) (m : Mach) (i v : Nat)
    (hacc : (BlocProcess P n m).1 ≠ Exit.invalidBlock ∧
      (BlocProcess P n m).1 ≠ Exit.crcMismatch)
    (hi : i < TAILLE_BLOC_TRANS)
    (hold : Bloc.Data m.___DataBuff.getBuffPtr i < 256) (hv : v < 256)
    (hne : v ≠ Bloc.Data m.___DataBuff.getBuffPtr i) :
    (BlocProcess P n (withBuff (poke m.___DataBuff.getBuffPtr (8 + i) v) m)).1
      = Exit.crcMismatch := by
  have hval := valid_of_accepts P n m hacc
  rw [validBloc_iff] at hval
  have hs := payloadSum_poke m.___DataBuff.getBuffPtr i v hi
  have hcrc : Bloc._CRC (poke m.___DataBuff.getBuffPtr (8 + i) v)
      = Bloc._CRC m.___DataBuff.getBuffPtr := by
    have : (6 : Nat) ≠ 8 + i := by omega
    simp [Bloc._CRC, poke, this]
  have hh : headerInvalid (withBuff (poke m.___DataBuff.getBuffPtr (8 + i) v) m).___DataBuff.getBuffPtr n
      = false := by
    show headerInvalid (poke m.___DataBuff.getBuffPtr (8 + i) v) n = false
    rw [headerInvalid_poke _ _ _ _ hi]; exact hval.1
  have hc : payloadSum (withBuff (poke m.___DataBuff.getBuffPtr (8 + i) v) m).___DataBuff.getBuffPtr
      % 256 ≠ Bloc._CRC (withBuff (poke m.___DataBuff.getBuffPtr (8 + i) v) m).___DataBuff.getBuffPtr := by
    show payloadSum (poke m.___DataBuff.getBuffPtr (8 + i) v) % 256
      ≠ Bloc._CRC (poke m.___DataBuff.getBuffPtr (8 + i) v)
    rw [hcrc, ← hval.2]
    omega
  rw [BlocProcess_crc P n _ hh hc]

/-- C8 at block number 11 with payload `1, 0, 0, ...`: its first payload byte replaced
by `2`. -/
theorem C8_witness :
    (BlocProcess samplePlatform 11
      (withBuff (poke (sampleMach (sampleBloc 11 1 0 samplePayload)).___DataBuff.getBuffPtr
        (8 + 0) 2) (sampleMach (sampleBloc 11 1 0 samplePayload)))).1 = Exit.crcMismatch :=
  C8_single_byte_change_rejected samplePlatform 11
    (sampleMach (sampleBloc 11 1 0 samplePayload)) 0 2
    (accepts_of_valid _ _ _ (by decide!)) (by decide) (by decide!) (by decide) (by decide!)

/-- C9, as stated, fails: a block numbered 0 with correct markers whose checksum byte is
`0` while its payload sums to `1` is rejected at the checksum test, yet byte 0 of the page
buffer has changed from `0` to `1`. -/
theorem C9_counterexample :
    (BlocProcess samplePlatform 0 (sampleMach (sampleBloc 0 0 0 samplePayload))).1
        = Exit.crcMismatch ∧
    (sampleMach (sampleBloc 0 0 0 samplePayload)).__PageBuff 0 = 0 ∧
    (BlocProcess samplePlatform 0 (sampleMach (sampleBloc 0 0 0 samplePayload))).2.__PageBuff 0
        = 1 := by
  rw [BlocProcess_crc samplePlatform 0 (sampleMach (sampleBloc 0 0 0 samplePayload))
    (by decide!) (by decide!)]
  exact ⟨rfl, rfl, by decide!⟩

/-- C9, amended: a block rejected by validation never changes the flash and makes no
flash operation, and leaves every byte of the page buffer outside slot `n mod 8`
unchanged; rejected for its markers or its number it leaves the whole page buffer
unchanged; rejected for its checksum it has been copied into slot `n mod 8`. -/
theorem C9_rejected_block_effects (P : Platform) (n : Nat) (m : Mach)
    (hrej : (BlocProcess P n m).1 = Exit.invalidBlock ∨
      (BlocProcess P n m).1 = Exit.crcMismatch) :
    (BlocProcess P n m).2.flash = m.flash ∧
    (BlocProcess P n m).2.ops = m.ops ∧
    (∀ j, ¬ (n % NB_BLOC_TRANS * TAILLE_BLOC_TRANS ≤ j ∧
        j < n % NB_BLOC_TRANS * TAILLE_BLOC_TRANS + TAILLE_BLOC_TRANS) →
      (BlocProcess P n m).2.__PageBuff j = m.__PageBuff j) ∧
    ((BlocProcess P n m).1 = Exit.invalidBlock →
      (BlocProcess P n m).2.__PageBuff = m.__PageBuff) ∧
    ((BlocProcess P n m).1 = Exit.crcMismatch → ∀ i, i < TAILLE_BLOC_TRANS →
      (BlocProcess P n m).2.__PageBuff (n % NB_BLOC_TRANS * TAILLE_BLOC_TRANS + i)
        = Bloc.Data m.___DataBuff.getBuffPtr i) := by
  have hnv := (BlocProcess_rejects_iff P n m).1 hrej
  have hf := BlocProcess_rejected_flash P n m hnv
  refine ⟨hf.2.1, hf.2.2, ?_, ?_, ?_⟩
  · intro j hj
    rcases BlocProcess_cases P n m with ⟨_, e⟩ | ⟨_, _, e⟩ | ⟨hv, _, _⟩ | ⟨hv, _, _⟩
    · rw [e]
    · rw [e]; exact storeSlot_out _ _ _ j hj
    · exact absurd hv hnv
    · exact absurd hv hnv
  · intro he
    rcases BlocProcess_cases P n m with ⟨_, e⟩ | ⟨_, _, e⟩ | ⟨hv, _, _⟩ | ⟨hv, _, _⟩
    · rw [e]
    · rw [e] at he; exact absurd he (by simp)
    · exact absurd hv hnv
    · exact absurd hv hnv
  · intro he i hi
    rcases BlocProcess_cases P n m with ⟨_, e⟩ | ⟨_, _, e⟩ | ⟨hv, _, _⟩ | ⟨hv, _, _⟩
    · rw [e] at he; exact absurd he (by simp)
    · rw [e]; exact storeSlot_in _ _ _ i hi
    · exact absurd hv hnv
    · exact absurd hv hnv

/-- C9 amended, at the block of the counterexample: the flash is untouched. -/
theorem C9_witness :
    (BlocProcess samplePlatform 0 (sampleMach (sampleBloc 0 0 0 samplePayload))).2.flash
      = (sampleMach (sampleBloc 0 0 0 samplePayload)).flash :=
  (C9_rejected_block_effects samplePlatform 0 (sampleMach (sampleBloc 0 0 0 samplePayload))
    (Or.inr (by
      rw [BlocProcess_crc samplePlatform 0 (sampleMach (sampleBloc 0 0 0 samplePayload))
        (by decide!) (by decide!)]))).1

/-- C5: for a block that passes validation with number `n`, `BlocProcess` makes one
erase, one write of the page buffer and one read-back pass, all at page `n div 8`, when
`n mod 8 = 7` or the flag is nonzero, and makes no flash operation otherwise; so a
flagged block in a slot below 7 commits its page, and a sweep of well-formed blocks 0..7
flagged only on block 7 makes exactly one commit, of page 0. -/
theorem C5_commit_iff_page_due :
    (∀ (P : Platform) (n : Nat) (m : Mach), ValidBloc m.___DataBuff.getBuffPtr n →
      (BlocProcess P n m).2.ops = m.ops ++
        (if n % 8 = 7 ∨ Bloc._EndTrans m.___DataBuff.getBuffPtr ≠ 0 then
          [FlashOp.erase (pageAddr P (n / 8)), FlashOp.write (pageAddr P (n / 8)) TAILLE_PAGES_QSPI,
            FlashOp.readback (pageAddr P (n / 8)) TAILLE_PAGES_QSPI]
         else []) ∧
      (BlocProcess P n m).2.flash =
        (if n % 8 = 7 ∨ Bloc._EndTrans m.___DataBuff.getBuffPtr ≠ 0 then
          P.Write (BlocProcess P n m).2.__PageBuff (pageAddr P (n / 8)) TAILLE_PAGES_QSPI
            (P.EraseBlock4K (pageAddr P (n / 8)) m.flash)
         else m.flash)) ∧
    (∀ (P : Platform) (n : Nat) (m : Mach), ValidBloc m.___DataBuff.getBuffPtr n →
      n % 8 < 7 → Bloc._EndTrans m.___DataBuff.getBuffPtr ≠ 0 →
      (BlocProcess P n m).2.ops = m.ops ++
        [FlashOp.erase (pageAddr P (n / 8)), FlashOp.write (pageAddr P (n / 8)) TAILLE_PAGES_QSPI,
          FlashOp.readback (pageAddr P (n / 8)) TAILLE_PAGES_QSPI]) ∧
    (∀ (P : Platform) (blocs : Nat → Nat → Nat) (m : Mach),
      (∀ i, i < 8 → ValidBloc (blocs i) i) →
      (∀ i, i < 7 → Bloc._EndTrans (blocs i) = 0) → Bloc._EndTrans (blocs 7) ≠ 0 →
      (sweep P 0 blocs 8 m).ops = m.ops ++
        [FlashOp.erase (pageAddr P 0), FlashOp.write (pageAddr P 0) TAILLE_PAGES_QSPI,
          FlashOp.readback (pageAddr P 0) TAILLE_PAGES_QSPI]) := by
  have part1 : ∀ (P : Platform) (n : Nat) (m : Mach), ValidBloc m.___DataBuff.getBuffPtr n →
      (BlocProcess P n m).2.ops = m.ops ++
        (if n % 8 = 7 ∨ Bloc._EndTrans m.___DataBuff.getBuffPtr ≠ 0 then
          [FlashOp.erase (pageAddr P (n / 8)), FlashOp.write (pageAddr P (n / 8)) TAILLE_PAGES_QSPI,
            FlashOp.readback (pageAddr P (n / 8)) TAILLE_PAGES_QSPI]
         else []) ∧
      (BlocProcess P n m).2.flash =
        (if n % 8 = 7 ∨ Bloc._EndTrans m.___DataBuff.getBuffPtr ≠ 0 then
          P.Write (BlocProcess P n m).2.__PageBuff (pageAddr P (n / 8)) TAILLE_PAGES_QSPI
            (P.EraseBlock4K (pageAddr P (n / 8)) m.flash)
         else m.flash) := by
    intro P n m hv
    rw [BlocProcess_page P n m (headerInvalid_of_valid hv)]
    rcases BlocProcess_valid_ops P n m hv with ⟨hd, h1, h2⟩ | ⟨hd, h1, h2⟩
    · have hd' : n % 8 = 7 ∨ Bloc._EndTrans m.___DataBuff.getBuffPtr ≠ 0 := hd
      rw [if_pos hd', if_pos hd', h1, h2]
      exact ⟨rfl, rfl⟩
    · have hd' : ¬ (n % 8 = 7 ∨ Bloc._EndTrans m.___DataBuff.getBuffPtr ≠ 0) := hd
      rw [if_neg hd', if_neg hd', h1, h2]
      exact ⟨(List.append_nil _).symm, rfl⟩
  refine ⟨part1, ?_, ?_⟩
  · intro P n m hv _ hflag
    have h := (part1 P n m hv).1
    rw [if_pos (Or.inr hflag)] at h
    exact h
  · intro P blocs m hv hflag h7
    have hv' : ∀ i, i < 8 → ValidBloc (blocs i) (8 * 0 + i) := by
      intro i hi
      have := hv i hi
      simpa using this
    have hpre := sweep_pending P 0 blocs m 7 (Nat.le_refl 7)
      (fun i hi => hv' i (by omega)) hflag
    have hlast := (part1 P (8 * 0 + 7) (received (blocs 7) (sweep P (8 * 0) blocs 7 m))
      (hv' 7 (by omega))).1
    have hc : (8 * 0 + 7) % 8 = 7 ∨
        Bloc._EndTrans (received (blocs 7) (sweep P (8 * 0) blocs 7 m)).___DataBuff.getBuffPtr ≠ 0 :=
      Or.inl rfl
    rw [if_pos hc] at hlast
    show (BlocProcess P (0 + 7) (received (blocs 7) (sweep P 0 blocs 7 m))).2.ops = _
    have e0 : (8 * 0 : Nat) = 0 := rfl
    rw [e0] at hlast hpre
    rw [hlast]
    show (sweep P 0 blocs 7 m).ops ++ _ = _
    rw [hpre.1]

/-- C5 at a flagged block numbered 11 (slot 3 of page 1): one commit of page 1. -/
theorem C5_witness :
    (BlocProcess samplePlatform 11 (sampleMach (sampleBloc 11 1 1 samplePayload))).2.ops =
      (sampleMach (sampleBloc 11 1 1 samplePayload)).ops ++
        [FlashOp.erase (pageAddr samplePlatform (11 / 8)),
          FlashOp.write (pageAddr samplePlatform (11 / 8)) TAILLE_PAGES_QSPI,
          FlashOp.readback (pageAddr samplePlatform (11 / 8)) TAILLE_PAGES_QSPI] :=
  C5_commit_iff_page_due.2.1 samplePlatform 11 (sampleMach (sampleBloc 11 1 1 samplePayload))
    (by decide!) (by decide) (by decide!)

/-- C7: on a faithful flash, for every page `q` and every 8 well-formed blocks numbered
`8q .. 8q+7` processed in this order, the commit made at block `8q+7` passes the
read-back, and the sector of page `q` then holds the 8 payloads in order, byte for byte
what the page buffer holds. -/
theorem C7_round_trip (P : Platform) (hf : Faithful P) (q : Nat) (blocs : Nat → Nat → Nat)
    (m : Mach) (hv : ∀ i, i < 8 → ValidBloc (blocs i) (8 * q + i)) :
    (BlocProcess P (8 * q + 7) (received (blocs 7) (sweep P (8 * q) blocs 7 m))).1
      ≠ Exit.verifyFailed ∧
    (∀ i, i < 8 → ∀ j, j < TAILLE_BLOC_TRANS →
      (sweep P (8 * q) blocs 8 m).flash (pageAddr P q + (i * TAILLE_BLOC_TRANS + j))
        = Bloc.Data (blocs i) j) ∧
    (∀ x, x < TAILLE_PAGES_QSPI →
      (sweep P (8 * q) blocs 8 m).flash (pageAddr P q + x)
        = (sweep P (8 * q) blocs 8 m).__PageBuff x) := by
  have hv7 : ValidBloc (received (blocs 7) (sweep P (8 * q) blocs 7 m)).___DataBuff.getBuffPtr
      (8 * q + 7) := hv 7 (by omega)
  have hd : pageDue (8 * q + 7) (received (blocs 7) (sweep P (8 * q) blocs 7 m)) := by
    rw [pageDue_received]
    left
    simp only [NB_BLOC_TRANS]
    omega
  have hq : (8 * q + 7) / NB_BLOC_TRANS = q := by
    simp only [NB_BLOC_TRANS]
    omega
  have hc := commit_faithful P hf (8 * q + 7) _ hv7 hd
  rw [hq] at hc
  have hflash : ∀ x, x < TAILLE_PAGES_QSPI →
      (sweep P (8 * q) blocs 8 m).flash (pageAddr P q + x)
        = (sweep P (8 * q) blocs 8 m).__PageBuff x := hc.2
  refine ⟨?_, ?_, hflash⟩
  · rw [hc.1]
    exact doneExit_ne_verify _
  · intro i hi j hj
    have hj' : j < 1024 := hj
    have hx : i * TAILLE_BLOC_TRANS + j < TAILLE_PAGES_QSPI := by
      simp only [TAILLE_BLOC_TRANS, TAILLE_PAGES_QSPI, QFLAH_SECTOR_SIZE]
      omega
    rw [hflash _ hx]
    exact sweep_page P q blocs m 8 (Nat.le_refl 8) hv i hi j hj

/-- C7 on the sample flash, page 1: blocks 8..15 with payload `1, 0, 0, ...`. -/
theorem C7_witness :
    Faithful samplePlatform ∧
    (sweep samplePlatform (8 * 1) (fun i => sampleBloc (8 + i) 1 0 samplePayload) 8
        (sampleMach (sampleBloc 0 0 0 samplePayload))).flash
      (pageAddr samplePlatform 1 + (3 * TAILLE_BLOC_TRANS + 0)) = 1 :=
  ⟨samplePlatform_faithful,
   (C7_round_trip samplePlatform samplePlatform_faithful 1
      (fun i => sampleBloc (8 + i) 1 0 samplePayload)
      (sampleMach (sampleBloc 0 0 0 samplePayload)) (by decide!)).2.1 3 (by decide) 0
      (by decide)⟩

/-! ## Claims on `FlasherClient` -/

/-- C10: when no poll of a pass sees a full block in the reception buffer, the pass
does not call `BlocProcess`, leaves the page buffer, the flash and the list of flash
operations unchanged, sets `ResultProcess = false`, and the next request carries
number 0; and in every pass and every run, each call of `BlocProcess` is made with
`getNbData() ≥ sizeof(Bloc)`, counted from the `Clear` of that pass. -/
theorem C10_timeout_without_full_block :
    (∀ (P : Platform) (fuel : Nat) (rx : Nat → List Nat) (s : Client),
      P.VAL_TIMEOUT ≤ 65535 → P.VAL_TIMEOUT < fuel →
      (∀ k, k ≤ P.VAL_TIMEOUT →
        (FlasherClient.atPoll rx (FlasherClient.request s).mach k).___DataBuff.getNbData
          < sizeofBloc) →
      ∃ s', FlasherClient.iteration P fuel rx s = some s' ∧
        s'.mach.calls = s.mach.calls ∧ s'.mach.__PageBuff = s.mach.__PageBuff ∧
        s'.mach.flash = s.mach.flash ∧ s'.mach.ops = s.mach.ops ∧
        s'.ResultProcess = false ∧ (FlasherClient.request s').NumBloc = 0 ∧
        (FlasherClient.request s').mach.sent = s'.mach.sent ++ [requestMsg 0]) ∧
    (∀ (P : Platform) (fuel : Nat) (rx : Nat → List Nat) (s s' : Client),
      FlasherClient.iteration P fuel rx s = some s' →
      s'.mach.calls = s.mach.calls ∨
      ∃ t c, s'.mach.calls = s.mach.calls ++ [c] ∧ sizeofBloc ≤ c.NbData ∧
        c.NbData =
          (FlasherClient.atPoll rx (FlasherClient.request s).mach t).___DataBuff.getNbData ∧
        (FlasherClient.request s).mach.___DataBuff = s.mach.___DataBuff.Clear) ∧
    (∀ (P : Platform) (fuel : Nat) (rx : Nat → Nat → List Nat) (n : Nat) (m : Mach)
      (s' : Client), FlasherClient P fuel rx n (FlasherClient.entry m) = some s' →
      ∀ c, c ∈ s'.mach.calls → c ∈ m.calls ∨ sizeofBloc ≤ c.NbData) := by
  refine ⟨?_, ?_, ?_⟩
  · intro P fuel rx s hV hfuel hquiet
    have h := iteration_timeout P fuel rx s hV hfuel hquiet
    have hfr := atPoll_frame rx (FlasherClient.request s).mach P.VAL_TIMEOUT
    refine ⟨_, h, hfr.2.2.2.2.1, hfr.1, hfr.2.1, hfr.2.2.1, rfl, ?_, ?_⟩
    · exact (request_after_failure _ rfl).1
    · exact (request_after_failure _ rfl).2
  · intro P fuel rx s s' h
    rcases (iteration_cases P fuel rx s s' h).2.2 with ⟨_, hc, _⟩ | ⟨t, c, hc, _, _, hnb, hfull, _⟩
    · exact Or.inl hc
    · exact Or.inr ⟨t, c, hc, hfull, hnb, rfl⟩
  · intro P fuel rx n m s' h c hc
    exact run_calls P fuel rx (FlasherClient.entry m) n s' h c hc

/-- C10 on the sample platform, from power-on, when no byte arrives. -/
theorem C10_witness :
    ∃ s', FlasherClient.iteration samplePlatform 4 silence (FlasherClient.entry bootMach)
        = some s' ∧
      s'.mach.calls = [] ∧ s'.mach.__PageBuff = bootMach.__PageBuff ∧
      s'.mach.flash = bootMach.flash ∧ s'.mach.ops = [] ∧
      s'.ResultProcess = false ∧ (FlasherClient.request s').NumBloc = 0 ∧
      (FlasherClient.request s').mach.sent = s'.mach.sent ++ [requestMsg 0] :=
  C10_timeout_without_full_block.1 samplePlatform 4 silence (FlasherClient.entry bootMach)
    (by decide) (by decide) (by decide!)

/-- C4: when the block received for number `n` fails at the markers or the number, at the
checksum, or at the read-back after the flash write, `ResultProcess` is `false` and the
next request carries number 0, never `n + 1`, and not `n` unless `n` is 0 itself. -/
theorem C4_failure_restarts_at_zero (P : Platform) (fuel : Nat) (rx : Nat → List Nat)
    (s s' : Client) (c : Call)
    (hit : FlasherClient.iteration P fuel rx s = some s')
    (hcall : s'.mach.calls = s.mach.calls ++ [c])
    (hfail : c.exit = Exit.invalidBlock ∨ c.exit = Exit.crcMismatch ∨
      c.exit = Exit.verifyFailed) :
    c.NumBloc = s'.NumBloc ∧ s'.ResultProcess = false ∧
    (FlasherClient.request s').NumBloc = 0 ∧
    (FlasherClient.request s').NumBloc ≠ c.NumBloc + 1 ∧
    (c.NumBloc ≠ 0 → (FlasherClient.request s').NumBloc ≠ c.NumBloc) ∧
    (FlasherClient.request s').mach.sent = s'.mach.sent ++ [requestMsg 0] ∧
    (∀ (fuel' : Nat) (rx' : Nat → List Nat) (s'' : Client),
      FlasherClient.iteration P fuel' rx' s' = some s'' →
      s''.NumBloc = 0 ∧ s''.mach.sent = s'.mach.sent ++ [requestMsg 0]) := by
  have hcases := iteration_cases P fuel rx s s' hit
  have hres : s'.ResultProcess = false ∧ c.NumBloc = s'.NumBloc := by
    rcases hcases.2.2 with ⟨_, hc, _⟩ | ⟨t, c', hc, hr, hn, _⟩
    · rw [hc] at hcall
      have := congrArg List.length hcall
      simp at this
    · rw [hc] at hcall
      have e : c' = c := by simpa using hcall
      subst e
      refine ⟨?_, by rw [hn, hcases.1]⟩
      rw [hr]
      rcases hfail with h | h | h <;> rw [h] <;> rfl
  have hreq := request_after_failure s' hres.1
  refine ⟨hres.2, hres.1, hreq.1, by rw [hreq.1]; omega,
    fun h0 => by rw [hreq.1]; exact fun h => h0 h.symm, hreq.2, ?_⟩
  intro fuel' rx' s'' h2
  have h := iteration_cases P fuel' rx' s' s'' h2
  exact ⟨by rw [h.1, hreq.1], by rw [h.2.1, hreq.1]⟩

/-- C4 at `n = 2` with a checksum mismatch on the sample platform, and at `n = 7` with
a read-back mismatch on a flash that ignores writes: the next request carries 0. -/
theorem C4_witness :
    (∃ s' c, FlasherClient.iteration samplePlatform 4 (atOnce (blocBytes badCrcBloc2)) afterBloc1
        = some s' ∧ s'.mach.calls = afterBloc1.mach.calls ++ [c] ∧ c.NumBloc = 2 ∧
      c.exit = Exit.crcMismatch ∧ (FlasherClient.request s').NumBloc = 0) ∧
    (∃ s' c, FlasherClient.iteration deadPlatform 4 (atOnce (blocBytes goodBloc7)) afterBloc6
        = some s' ∧ s'.mach.calls = afterBloc6.mach.calls ++ [c] ∧ c.NumBloc = 7 ∧
      c.exit = Exit.verifyFailed ∧ (FlasherClient.request s').NumBloc = 0) := by
  constructor
  · obtain ⟨s', c, hit, hcall, hn, hce, _⟩ :=
      iteration_delivered_call samplePlatform 4 (by decide) afterBloc1 badCrcBloc2 bootMach_room
        (by decide)
    have hh : headerInvalid (handed badCrcBloc2 afterBloc1).___DataBuff.getBuffPtr
        (FlasherClient.request afterBloc1).NumBloc = false := by decide!
    have hc : payloadSum (handed badCrcBloc2 afterBloc1).___DataBuff.getBuffPtr % 256
        ≠ Bloc._CRC (handed badCrcBloc2 afterBloc1).___DataBuff.getBuffPtr := by decide!
    have hexit : c.exit = Exit.crcMismatch :=
      hce.trans (congrArg Prod.fst (BlocProcess_crc samplePlatform _ _ hh hc))
    exact ⟨s', c, hit, hcall, hn, hexit,
      (C4_failure_restarts_at_zero samplePlatform 4 _ afterBloc1 s' c hit hcall
        (Or.inr (Or.inl hexit))).2.2.1⟩
  · obtain ⟨s', c, hit, hcall, hn, hce, _⟩ :=
      iteration_delivered_call deadPlatform 4 (by decide) afterBloc6 goodBloc7 bootMach_room
        (by decide)
    have hv : ValidBloc (handed goodBloc7 afterBloc6).___DataBuff.getBuffPtr
        (FlasherClient.request afterBloc6).NumBloc := by decide!
    have hd : pageDue (FlasherClient.request afterBloc6).NumBloc (handed goodBloc7 afterBloc6) := by
      decide!
    have hne : (assembled (FlasherClient.request afterBloc6).NumBloc
          (handed goodBloc7 afterBloc6)).__PageBuff 0
        ≠ (committed deadPlatform (FlasherClient.request afterBloc6).NumBloc
            (assembled (FlasherClient.request afterBloc6).NumBloc
              (handed goodBloc7 afterBloc6))).flash
          (pageAddr deadPlatform ((FlasherClient.request afterBloc6).NumBloc / NB_BLOC_TRANS) + 0) := by
      decide!
    have hexit : c.exit = Exit.verifyFailed :=
      hce.trans (commit_verify_fails deadPlatform _ _ hv hd 0 (by decide) hne)
    exact ⟨s', c, hit, hcall, hn, hexit,
      (C4_failure_restarts_at_zero deadPlatform 4 _ afterBloc6 s' c hit hcall
        (Or.inr (Or.inr hexit))).2.2.1⟩

/-- C2, as stated, fails: from power-on on the sample platform, the well-formed flagged
block 0 is validated, committed and read back with success, yet `ResultProcess` is
`false` as after a failure, the loop goes on, and a second request, for block 0, is
transmitted. -/
theorem C2_counterexample :
    ∃ (s1 s2 : Client) (c : Call),
      FlasherClient.iteration samplePlatform 4 (atOnce (blocBytes lastBloc0))
        (FlasherClient.entry bootMach) = some s1 ∧
      s1.mach.calls = [c] ∧ c.exit = Exit.endOfTransmission ∧ s1.ResultProcess = false ∧
      FlasherClient.iteration samplePlatform 4 silence s1 = some s2 ∧
      s2.mach.sent = [requestMsg 0, requestMsg 0] := by
  obtain ⟨s1, c, hit, hcall, hexit, hsent⟩ := sample_last_bloc
  have hres : s1.ResultProcess = false := by
    rcases (iteration_cases _ _ _ _ _ hit).2.2 with ⟨h, _⟩ | ⟨_, c', hc, hr, _⟩
    · exact h
    · rw [hc] at hcall
      have e : c' = c := by simpa using hcall
      subst e
      rw [hr, hexit]; rfl
  have h2 := iteration_silence samplePlatform 4 s1 (by decide) (by decide)
  refine ⟨s1, _, c, hit, hcall, hexit, hres, h2, ?_⟩
  show (FlasherClient.request s1).mach.sent = _
  rw [(request_after_failure s1 hres).2, hsent]
  rfl

/-- C2, amended: the exit "End of transmission" is taken exactly by a well-formed flagged
block whose page passed the read-back, and there `BlocProcess` returns `false`, as at
each of its failure exits; after such a pass `ResultProcess` is `false`, the loop does not
stop, and the next pass transmits a request, for block 0. -/
theorem C2_end_of_transfer_restarts :
    (∀ (P : Platform) (n : Nat) (m : Mach),
      (BlocProcess P n m).1 = Exit.endOfTransmission ↔
        ValidBloc m.___DataBuff.getBuffPtr n ∧ Bloc._EndTrans m.___DataBuff.getBuffPtr ≠ 0 ∧
        verifyLoop (BlocProcess P n m).2.__PageBuff (BlocProcess P n m).2.flash
          (pageAddr P (n / NB_BLOC_TRANS)) = true) ∧
    (Exit.endOfTransmission.ret = false ∧ Exit.invalidBlock.ret = false ∧
      Exit.crcMismatch.ret = false ∧ Exit.verifyFailed.ret = false) ∧
    (∀ (P : Platform) (fuel : Nat) (rx : Nat → List Nat) (s s' : Client) (c : Call),
      FlasherClient.iteration P fuel rx s = some s' →
      s'.mach.calls = s.mach.calls ++ [c] → c.exit = Exit.endOfTransmission →
      s'.ResultProcess = false ∧ (FlasherClient.request s').NumBloc = 0 ∧
      (∀ (fuel' : Nat) (rx' : Nat → List Nat) (s'' : Client),
        FlasherClient.iteration P fuel' rx' s' = some s'' →
        s''.NumBloc = 0 ∧ s''.mach.sent = s'.mach.sent ++ [requestMsg 0]) ∧
      (∀ (fuel' : Nat) (rx' : Nat → List Nat), P.VAL_TIMEOUT ≤ 65535 → P.VAL_TIMEOUT < fuel' →
        ∃ s'', FlasherClient.iteration P fuel' rx' s' = some s'')) := by
  refine ⟨exit_endOfTransmission_iff, ⟨rfl, rfl, rfl, rfl⟩, ?_⟩
  intro P fuel rx s s' c hit hcall hend
  have hres : s'.ResultProcess = false := by
    rcases (iteration_cases P fuel rx s s' hit).2.2 with ⟨h, _⟩ | ⟨_, c', hc, hr, _⟩
    · exact h
    · rw [hc] at hcall
      have e : c' = c := by simpa using hcall
      subst e
      rw [hr, hend]; rfl
  have hreq := request_after_failure s' hres
  refine ⟨hres, hreq.1, ?_, ?_⟩
  · intro fuel' rx' s'' h2
    have h := iteration_cases P fuel' rx' s' s'' h2
    exact ⟨by rw [h.1, hreq.1], by rw [h.2.1, hreq.1]⟩
  · intro fuel' rx' hV hfuel
    exact iteration_ends P fuel' rx' s' hV hfuel

/-- C2 amended, on the sample platform from power-on with the flagged block 0. -/
theorem C2_witness :
    ∃ (s1 : Client) (c : Call),
      FlasherClient.iteration samplePlatform 4 (atOnce (blocBytes lastBloc0))
        (FlasherClient.entry bootMach) = some s1 ∧
      s1.mach.calls = (FlasherClient.entry bootMach).mach.calls ++ [c] ∧
      c.exit = Exit.endOfTransmission ∧
      s1.ResultProcess = false ∧ (FlasherClient.request s1).NumBloc = 0 := by
  obtain ⟨s1, c, hit, hcall, hexit, _⟩ := sample_last_bloc
  have h := C2_end_of_transfer_restarts.2.2 samplePlatform 4 _ _ s1 c hit hcall hexit
  exact ⟨s1, c, hit, hcall, hexit, h.1, h.2.1⟩

/-- C3, as stated, fails: from power-on on the sample platform, 65536 passes that each
receive the well-formed unflagged block they requested leave the counter at 65535 with
`ResultProcess = true`, and the next request carries number 0, not 65535 + 1. -/
theorem C3_counterexample :
    ∃ s : Client,
      FlasherClient samplePlatform 4 goodRx (65535 + 1) (FlasherClient.entry bootMach) = some s ∧
      s.NumBloc = 65535 ∧ s.ResultProcess = true ∧
      (FlasherClient.request s).NumBloc = 0 ∧
      (FlasherClient.request s).NumBloc ≠ s.NumBloc + 1 := by
  obtain ⟨s, hrun, hnum, hres, _⟩ := run_good 65535 (by decide)
  have hreq : (FlasherClient.request s).NumBloc = 0 := by
    rw [request_NumBloc, hres, hnum]
    rfl
  exact ⟨s, hrun, hnum, hres, hreq, by rw [hreq, hnum]; decide⟩

/-- C3, amended: the first request carries number 0; every pass transmits exactly one
request, whose number is 0 or the previous requested number plus one modulo 65536; after
a pass that timed out or whose block left `BlocProcess` by any exit other than "Continue
processing" the next request carries 0; after a pass whose block left by "Continue
processing" (well formed, flag clear) it carries the previous number plus one modulo
65536, which is the previous number plus one below 65535. -/
theorem C3_requested_number (P : Platform) (fuel : Nat) (rx : Nat → List Nat) (s s' : Client)
    (hit : FlasherClient.iteration P fuel rx s = some s') :
    (∀ m : Mach, (FlasherClient.request (FlasherClient.entry m)).NumBloc = 0) ∧
    (∀ (n : Nat) (m : Mach), (BlocProcess P n m).1 = Exit.continueProcessing →
      ValidBloc m.___DataBuff.getBuffPtr n ∧ Bloc._EndTrans m.___DataBuff.getBuffPtr = 0) ∧
    s'.NumBloc = (FlasherClient.request s).NumBloc ∧
    s'.mach.sent = s.mach.sent ++ [requestMsg (FlasherClient.request s).NumBloc] ∧
    (FlasherClient.request s').mach.sent
      = s'.mach.sent ++ [requestMsg (FlasherClient.request s').NumBloc] ∧
    ((FlasherClient.request s').NumBloc = 0 ∨
      (FlasherClient.request s').NumBloc = ((FlasherClient.request s).NumBloc + 1) % 65536) ∧
    (s'.mach.calls = s.mach.calls → (FlasherClient.request s').NumBloc = 0) ∧
    (∀ c : Call, s'.mach.calls = s.mach.calls ++ [c] → c.exit ≠ Exit.continueProcessing →
      (FlasherClient.request s').NumBloc = 0) ∧
    (∀ c : Call, s'.mach.calls = s.mach.calls ++ [c] → c.exit = Exit.continueProcessing →
      (FlasherClient.request s').NumBloc = ((FlasherClient.request s).NumBloc + 1) % 65536 ∧
      ((FlasherClient.request s).NumBloc < 65535 →
        (FlasherClient.request s').NumBloc = (FlasherClient.request s).NumBloc + 1)) := by
  have hc := iteration_cases P fuel rx s s' hit
  have hreq := request_NumBloc s'
  have hres : ∀ c : Call, s'.mach.calls = s.mach.calls ++ [c] → s'.ResultProcess = c.exit.ret := by
    intro c hcall
    rcases hc.2.2 with ⟨_, hcalls, _⟩ | ⟨_, c', hcalls, hr, _⟩
    · rw [hcalls] at hcall
      have := congrArg List.length hcall
      simp at this
    · rw [hcalls] at hcall
      have e : c' = c := by simpa using hcall
      rw [← e]; exact hr
  refine ⟨fun _ => rfl, exit_continue_imp P, hc.1, hc.2.1, request_sent s', ?_, ?_, ?_, ?_⟩
  · rw [hreq, hc.1]
    by_cases h : s'.ResultProcess = false
    · exact Or.inl (by rw [if_pos h])
    · exact Or.inr (by rw [if_neg h])
  · intro hcalls
    rcases hc.2.2 with ⟨h, _⟩ | ⟨_, c', hcalls', _⟩
    · exact (request_after_failure s' h).1
    · rw [hcalls'] at hcalls
      have := congrArg List.length hcalls
      simp at this
  · intro c hcall hne
    have h : s'.ResultProcess = false := by
      rw [hres c hcall]
      cases hx : c.exit <;> first | rfl | exact absurd hx hne
    exact (request_after_failure s' h).1
  · intro c hcall he
    have h : s'.ResultProcess = true := by
      rw [hres c hcall, he]; rfl
    have e : (FlasherClient.request s').NumBloc = ((FlasherClient.request s).NumBloc + 1) % 65536 := by
      rw [hreq, h, hc.1]
      simp
    refine ⟨e, ?_⟩
    intro hlt
    rw [e]
    exact Nat.mod_eq_of_lt (by omega)

/-- C3 amended, on the first pass from power-on on the sample platform, block 0 received:
the second request carries number 1. -/
theorem C3_witness :
    ∃ (s' : Client) (c : Call),
      FlasherClient.iteration samplePlatform 4 (goodRx 0) (FlasherClient.entry bootMach)
        = some s' ∧
      s'.mach.calls = (FlasherClient.entry bootMach).mach.calls ++ [c] ∧
      c.exit = Exit.continueProcessing ∧
      (FlasherClient.request s').NumBloc
        = (FlasherClient.request (FlasherClient.entry bootMach)).NumBloc + 1 := by
  obtain ⟨s', c, hit, hcall, hexit, _⟩ :=
    iteration_good samplePlatform samplePlatform_faithful (by decide) 4 (by decide)
      (FlasherClient.entry bootMach) (sampleBloc 0 1 0 samplePayload) bootMach_room
      (sampleBloc_valid 0) rfl
  exact ⟨s', c, hit, hcall, hexit,
    ((C3_requested_number samplePlatform 4 (goodRx 0) (FlasherClient.entry bootMach) s'
      hit).2.2.2.2.2.2.2.2 c hcall hexit).2 (by decide)⟩

/-! ## Facts on `cBuff` -/

theorem cBuff.eq_of_fields (a b : cBuff) (h1 : a.m_pStartBuff = b.m_pStartBuff)
    (h2 : a.m_pEndBuff = b.m_pEndBuff) (h3 : a.m_pNextData = b.m_pNextData)
    (h4 : a.m_NbData = b.m_NbData) : a = b := by
  cases a; cases b
  simp only at h1 h2 h3 h4
  simp only [h1, h2, h3, h4]

theorem new_holds (TailleFIFO : Nat) (fresh : Nat → Nat) :
    (cBuff.new TailleFIFO fresh).Holds (TailleFIFO % 65536) 0 :=
  ⟨rfl, rfl, rfl, Nat.zero_le _, Nat.mod_lt _ (by decide)⟩

theorem Clear_holds (b : cBuff) (C k : Nat) (h : b.Holds C k) : b.Clear.Holds C 0 :=
  ⟨h.1, rfl, rfl, Nat.zero_le _, h.2.2.2.2⟩

/-- Function `addData` with room left. -/
theorem addData_room (b : cBuff) (C k Data : Nat) (h : b.Holds C k) (hk : k < C) :
    (b.addData Data).1 = true ∧ (b.addData Data).2.Holds C (k + 1) ∧
    (b.addData Data).2.m_pStartBuff = fun j => if j = k then Data else b.m_pStartBuff j := by
  obtain ⟨h1, h2, h3, _, h5⟩ := h
  have hlt : b.m_pNextData < b.m_pEndBuff := by rw [h1, h2]; exact hk
  have e : (b.m_NbData + 1) % 65536 = k + 1 := by rw [h3]; exact Nat.mod_eq_of_lt (by omega)
  unfold cBuff.addData
  rw [if_pos hlt]
  refine ⟨rfl, ⟨h1, by simp only [h2], e, hk, h5⟩, ?_⟩
  simp only [h2]

/-- Function `addData` on a full buffer. -/
theorem addData_full (b : cBuff) (C Data : Nat) (h : b.Holds C C) :
    (b.addData Data).1 = false ∧ (b.addData Data).2 = b := by
  obtain ⟨h1, h2, _⟩ := h
  have hlt : ¬ b.m_pNextData < b.m_pEndBuff := by rw [h1, h2]; exact Nat.lt_irrefl _
  unfold cBuff.addData
  rw [if_neg hlt]
  exact ⟨rfl, rfl⟩

/-- A delivery into a buffer of capacity `C` that holds `k` bytes: the buffer then holds
`min (k + len) C` bytes, the bytes that found room stored in order behind the old ones. -/
theorem foldl_addData_holds (buf : List Nat) :
    ∀ (b : cBuff) (C k : Nat), b.Holds C k →
      (buf.foldl (fun b d => (b.addData d).2) b).Holds C (min (k + buf.length) C) ∧
      (buf.foldl (fun b d => (b.addData d).2) b).m_pStartBuff =
        fun j => if k ≤ j ∧ j < min (k + buf.length) C then buf.getD (j - k) 0
          else b.m_pStartBuff j := by
  induction buf with
  | nil =>
    intro b C k h
    have hk : k ≤ C := h.2.2.2.1
    have e : min (k + ([] : List Nat).length) C = k := by
      simp only [List.length_nil, Nat.add_zero]; omega
    rw [e]
    refine ⟨h, ?_⟩
    funext j
    rw [if_neg (by omega)]
    rfl
  | cons d ds ih =>
    intro b C k h
    have hk : k ≤ C := h.2.2.2.1
    rw [List.foldl_cons]
    by_cases hlt : k < C
    · obtain ⟨_, hh, hm⟩ := addData_room b C k d h hlt
      obtain ⟨ih1, ih2⟩ := ih (b.addData d).2 C (k + 1) hh
      have e : min (k + 1 + ds.length) C = min (k + (d :: ds).length) C := by
        simp only [List.length_cons]; omega
      rw [e] at ih1 ih2
      refine ⟨ih1, ?_⟩
      rw [ih2]
      funext j
      simp only [hm]
      by_cases hj : j = k
      · subst hj
        have c1 : ¬ (j + 1 ≤ j ∧ j < min (j + (d :: ds).length) C) := by omega
        have c2 : j ≤ j ∧ j < min (j + (d :: ds).length) C := by
          simp only [List.length_cons]; omega
        rw [if_neg c1, if_pos c2, if_pos rfl, Nat.sub_self, List.getD_cons_zero]
      · by_cases hin : k + 1 ≤ j ∧ j < min (k + (d :: ds).length) C
        · have c2 : k ≤ j ∧ j < min (k + (d :: ds).length) C := ⟨by omega, hin.2⟩
          have e2 : j - k = (j - (k + 1)) + 1 := by omega
          rw [if_pos hin, if_pos c2, e2, List.getD_cons_succ]
        · have c2 : ¬ (k ≤ j ∧ j < min (k + (d :: ds).length) C) := by omega
          rw [if_neg hin, if_neg c2, if_neg hj]
    · have hkC : k = C := by omega
      subst hkC
      rw [(addData_full b k d h).2]
      obtain ⟨ih1, ih2⟩ := ih b k k h
      have e : min (k + ds.length) k = min (k + (d :: ds).length) k := by
        simp only [List.length_cons]; omega
      rw [e] at ih1 ih2
      refine ⟨ih1, ?_⟩
      rw [ih2]
      funext j
      have c1 : ¬ (k ≤ j ∧ j < min (k + (d :: ds).length) k) := by omega
      rw [if_neg c1, if_neg c1]

theorem map_range_split (f g : Nat → Nat) (k n : Nat) (l : List Nat) (hn : n = k + l.length)
    (hlow : ∀ i, i < k → f i = g i) (hup : ∀ i, i < l.length → f (k + i) = l.getD i 0) :
    (List.range n).map f = (List.range k).map g ++ l := by
  subst hn
  apply List.ext_getElem
  · simp
  · intro i h1 h2
    simp only [List.getElem_map, List.getElem_range]
    by_cases hi : i < k
    · rw [List.getElem_append_left (by simpa using hi)]
      simp only [List.getElem_map, List.getElem_range]
      exact hlow i hi
    · have hik : k ≤ i := by omega
      rw [List.getElem_append_right (by simpa using hik)]
      simp only [List.length_map, List.length_range]
      have hlen : i - k < l.length := by
        simp at h1; omega
      have := hup (i - k) hlen
      rw [show k + (i - k) = i by omega] at this
      rw [this, List.getD_eq_getElem?_getD, List.getElem?_eq_getElem hlen]
      rfl

theorem getD_take (l : List Nat) (n i : Nat) (hi : i < n) :
    (l.take n).getD i 0 = l.getD i 0 := by
  rw [List.getD_eq_getElem?_getD, List.getD_eq_getElem?_getD, List.getElem?_take_of_lt hi]

/-- The bytes held after a delivery: the bytes held before, followed by as many of the
delivered bytes, in order, as found room. -/
theorem content_after (buf : List Nat) (b : cBuff) (C k : Nat) (h : b.Holds C k) :
    (buf.foldl (fun b d => (b.addData d).2) b).content = b.content ++ buf.take (C - k) := by
  obtain ⟨hh, hm⟩ := foldl_addData_holds buf b C k h
  have hk : k ≤ C := h.2.2.2.1
  unfold cBuff.content cBuff.getNbData cBuff.getBuffPtr
  rw [hh.2.2.1, h.2.2.1, hm]
  have hlen : (buf.take (C - k)).length = min (C - k) buf.length := List.length_take _ _
  apply map_range_split
  · rw [hlen]; omega
  · intro i hi
    rw [if_neg (by omega)]
  · intro i hi
    rw [hlen] at hi
    rw [if_pos (by omega), Nat.add_sub_cancel_left, getD_take _ _ _ (by omega)]
/-- A delivery leaves the machine as the delivery of its first `C - k` bytes would. -/
theorem UsbCallbackFlasher_take (buf : List Nat) (m : Mach) (C k : Nat)
    (h : m.___DataBuff.Holds C k) :
    UsbCallbackFlasher buf m = UsbCallbackFlasher (buf.take (C - k)) m := by
  obtain ⟨h1, m1⟩ := foldl_addData_holds buf m.___DataBuff C k h
  obtain ⟨h2, m2⟩ := foldl_addData_holds (buf.take (C - k)) m.___DataBuff C k h
  have hk : k ≤ C := h.2.2.2.1
  have hlen : (buf.take (C - k)).length = min (C - k) buf.length := List.length_take _ _
  have e : min (k + (buf.take (C - k)).length) C = min (k + buf.length) C := by
    rw [hlen]; omega
  rw [e] at h2 m2
  unfold UsbCallbackFlasher
  congr 1
  apply cBuff.eq_of_fields
  · rw [m1, m2]
    funext j
    by_cases hj : k ≤ j ∧ j < min (k + buf.length) C
    · rw [if_pos hj, if_pos hj, getD_take _ _ _ (by omega)]
    · rw [if_neg hj, if_neg hj]
  · rw [h1.1, h2.1]
  · rw [h1.2.1, h2.2.1]
  · rw [h1.2.2.1, h2.2.2.1]

/-- The reception buffer after a delivery, in terms of what it held before. -/
theorem UsbCallbackFlasher_holds (buf : List Nat) (m : Mach) (C k : Nat)
    (h : m.___DataBuff.Holds C k) :
    (UsbCallbackFlasher buf m).___DataBuff.Holds C (min (k + buf.length) C) ∧
    (UsbCallbackFlasher buf m).___DataBuff.content
      = m.___DataBuff.content ++ buf.take (C - k) :=
  ⟨(foldl_addData_holds buf m.___DataBuff C k h).1, content_after buf m.___DataBuff C k h⟩

theorem UsbCallbackFlasher_count (buf : List Nat) (m : Mach) (C k : Nat)
    (h : m.___DataBuff.Holds C k) :
    (UsbCallbackFlasher buf m).___DataBuff.getNbData = min (k + buf.length) C :=
  (foldl_addData_holds buf m.___DataBuff C k h).1.2.2.1

theorem after_invariant (calls : List BuffCall) :
    ∀ (s : cBuff × Nat) (C : Nat), s.1.Holds C s.2 →
      (cBuff.after calls s).1.Holds C (cBuff.after calls s).2 := by
  induction calls with
  | nil => intro s C h; exact h
  | cons c cs ih =>
    intro s C h
    cases c with
    | addData d =>
      show (cBuff.after cs _).1.Holds C (cBuff.after cs _).2
      apply ih
      by_cases hlt : s.2 < C
      · obtain ⟨ht, hh, _⟩ := addData_room s.1 C s.2 d h hlt
        simp only [ht, if_true]
        exact hh
      · have hk : s.2 = C := by have := h.2.2.2.1; omega
        rw [hk] at h
        obtain ⟨hf, he⟩ := addData_full s.1 C d h
        simp only [hf, he, Bool.false_eq_true, if_false]
        rw [hk]; exact h
    | Clear =>
      show (cBuff.after cs _).1.Holds C (cBuff.after cs _).2
      apply ih
      exact Clear_holds s.1 C s.2 h

theorem bootMach_holds : bootMach.___DataBuff.Holds 2072 0 := by decide

theorem smallMach_holds : smallMach.___DataBuff.Holds 4 2 := by decide

/-! ## Claims on `cBuff` and `UsbCallbackFlasher` -/

/-- C11: on a `cBuff` of capacity `C` that holds `k` bytes, `addData` with `k < C` returns
`true`, the count becomes `k + 1`, the byte is stored at index `k` and every other byte is
unchanged; with `k = C` it returns `false` and leaves the buffer as it was; `Clear` sets
the count to 0 (and keeps the capacity). -/
theorem C11_addData_and_Clear (b : cBuff) (C k Data : Nat) (h : b.Holds C k) :
    (k < C →
      (b.addData Data).1 = true ∧ (b.addData Data).2.getNbData = k + 1 ∧
      (b.addData Data).2.Holds C (k + 1) ∧ (b.addData Data).2.getBuffPtr k = Data ∧
      ∀ j, j ≠ k → (b.addData Data).2.getBuffPtr j = b.getBuffPtr j) ∧
    (k = C →
      (b.addData Data).1 = false ∧ (b.addData Data).2 = b ∧
      (b.addData Data).2.getNbData = k) ∧
    (b.Clear.getNbData = 0 ∧ b.Clear.Holds C 0) := by
  refine ⟨?_, ?_, rfl, Clear_holds b C k h⟩
  · intro hk
    obtain ⟨ht, hh, hm⟩ := addData_room b C k Data h hk
    refine ⟨ht, hh.2.2.1, hh, ?_, ?_⟩
    · show (b.addData Data).2.m_pStartBuff k = Data
      rw [hm]
      simp
    · intro j hj
      show (b.addData Data).2.m_pStartBuff j = b.m_pStartBuff j
      rw [hm]
      simp [hj]
  · intro hk
    subst hk
    obtain ⟨hf, he⟩ := addData_full b k Data h
    refine ⟨hf, he, ?_⟩
    rw [he]
    exact h.2.2.1

/-- C11 on a buffer of capacity 4 that holds 2 bytes. -/
theorem C11_witness :
    (smallMach.___DataBuff.addData 12).1 = true ∧
    (smallMach.___DataBuff.addData 12).2.getNbData = 2 + 1 ∧
    (smallMach.___DataBuff.addData 12).2.getBuffPtr 2 = 12 :=
  ⟨((C11_addData_and_Clear smallMach.___DataBuff 4 2 12 smallMach_holds).1 (by decide)).1,
   ((C11_addData_and_Clear smallMach.___DataBuff 4 2 12 smallMach_holds).1 (by decide)).2.1,
   ((C11_addData_and_Clear smallMach.___DataBuff 4 2 12 smallMach_holds).1 (by decide)).2.2.2.1⟩

/-- C15: after construction with capacity `C` and any sequence of `addData` and `Clear`
calls, `getNbData()` is at most `C`, equals the offset of the next-write pointer from the
start of the buffer, and equals the number of `addData` calls that returned `true` since
the last `Clear` (or since construction). -/
theorem C15_cBuff_invariant (C : Nat) (fresh : Nat → Nat) (calls : List BuffCall) :
    (cBuff.after calls (cBuff.new C fresh, 0)).1.getNbData ≤ C ∧
    (cBuff.after calls (cBuff.new C fresh, 0)).1.getNbData
      ≤ (cBuff.after calls (cBuff.new C fresh, 0)).1.m_pEndBuff ∧
    (cBuff.after calls (cBuff.new C fresh, 0)).1.getNbData
      = (cBuff.after calls (cBuff.new C fresh, 0)).1.m_pNextData ∧
    (cBuff.after calls (cBuff.new C fresh, 0)).1.getNbData
      = (cBuff.after calls (cBuff.new C fresh, 0)).2 := by
  have h := after_invariant calls (cBuff.new C fresh, 0) (C % 65536) (new_holds C fresh)
  obtain ⟨h1, h2, h3, h4, _⟩ := h
  have hC : C % 65536 ≤ C := Nat.mod_le _ _
  unfold cBuff.getNbData
  refine ⟨?_, ?_, ?_, h3⟩
  · rw [h3]; omega
  · rw [h3, h1]; exact h4
  · rw [h3, h2]

/-- C12, as stated, fails: delivered to the empty reception buffer of the machine at
power-on (capacity 2072), 2073 bytes leave the count at 2072, not at 0 + 2073. -/
theorem C12_counterexample :
    bootMach.___DataBuff.getNbData = 0 ∧ (List.replicate 2073 7).length = 2073 ∧
    (UsbCallbackFlasher (List.replicate 2073 7) bootMach).___DataBuff.getNbData = 2072 := by
  have hl : (List.replicate 2073 7).length = 2073 := List.length_replicate _ _
  have e : min (0 + (List.replicate 2073 7).length) 2072 = 2072 := by rw [hl]; rfl
  exact ⟨rfl, hl,
    (UsbCallbackFlasher_count (List.replicate 2073 7) bootMach 2072 0 bootMach_holds).trans e⟩

/-- C12, amended: a delivery of `len` bytes that fits in the room left (`k + len ≤ C`) is
appended whole and in order: the buffer then holds its previous content followed by the
delivered bytes, and its count is `k + len`; nothing else in the machine changes. -/
theorem C12_delivery_that_fits_is_appended (buf : List Nat) (m : Mach) (C k : Nat)
    (h : m.___DataBuff.Holds C k) (hfit : k + buf.length ≤ C) :
    (UsbCallbackFlasher buf m).___DataBuff.content = m.___DataBuff.content ++ buf ∧
    (UsbCallbackFlasher buf m).___DataBuff.getNbData = k + buf.length ∧
    (UsbCallbackFlasher buf m).___DataBuff.Holds C (k + buf.length) ∧
    (UsbCallbackFlasher buf m).__PageBuff = m.__PageBuff ∧
    (UsbCallbackFlasher buf m).flash = m.flash := by
  obtain ⟨hh, hc⟩ := UsbCallbackFlasher_holds buf m C k h
  have e : min (k + buf.length) C = k + buf.length := by omega
  rw [e] at hh
  have ht : buf.take (C - k) = buf := List.take_of_length_le (by omega)
  rw [ht] at hc
  exact ⟨hc, hh.2.2.1, hh, rfl, rfl⟩

/-- C12 amended, on a buffer of capacity 4 that holds 2 bytes, with 2 bytes delivered. -/
theorem C12_witness :
    (UsbCallbackFlasher [12, 13] smallMach).___DataBuff.content
      = smallMach.___DataBuff.content ++ [12, 13] ∧
    (UsbCallbackFlasher [12, 13] smallMach).___DataBuff.getNbData = 2 + 2 :=
  ⟨(C12_delivery_that_fits_is_appended [12, 13] smallMach 4 2 smallMach_holds (by decide)).1,
   (C12_delivery_that_fits_is_appended [12, 13] smallMach 4 2 smallMach_holds (by decide)).2.1⟩

/-- C17: a delivery of `len` bytes that does not fit (`k + len > C`) fills the buffer:
the count is `C`, the content is the previous content followed by the first `C - k`
delivered bytes in order, and the machine is left exactly as the delivery of these
`C - k` bytes alone would leave it, so that nothing records the bytes dropped. -/
theorem C17_overflow_keeps_first_bytes (buf : List Nat) (m : Mach) (C k : Nat)
    (h : m.___DataBuff.Holds C k) (hover : C < k + buf.length) :
    (UsbCallbackFlasher buf m).___DataBuff.getNbData = C ∧
    (UsbCallbackFlasher buf m).___DataBuff.Holds C C ∧
    (UsbCallbackFlasher buf m).___DataBuff.content
      = m.___DataBuff.content ++ buf.take (C - k) ∧
    (buf.take (C - k)).length = C - k ∧
    UsbCallbackFlasher buf m = UsbCallbackFlasher (buf.take (C - k)) m ∧
    (UsbCallbackFlasher buf m).__PageBuff = m.__PageBuff ∧
    (UsbCallbackFlasher buf m).flash = m.flash ∧
    (UsbCallbackFlasher buf m).ops = m.ops ∧
    (UsbCallbackFlasher buf m).sent = m.sent ∧
    (UsbCallbackFlasher buf m).calls = m.calls ∧
    (UsbCallbackFlasher buf m).led = m.led := by
  obtain ⟨hh, hc⟩ := UsbCallbackFlasher_holds buf m C k h
  have e : min (k + buf.length) C = C := by omega
  rw [e] at hh
  have hlen : (buf.take (C - k)).length = C - k := by
    rw [List.length_take]; omega
  exact ⟨hh.2.2.1, hh, hc, hlen, UsbCallbackFlasher_take buf m C k h, rfl, rfl, rfl, rfl, rfl,
    rfl⟩

/-- C17 on a buffer of capacity 4 that holds 2 bytes, with 3 bytes delivered. -/
theorem C17_witness :
    (UsbCallbackFlasher [12, 13, 14] smallMach).___DataBuff.getNbData = 4 ∧
    (UsbCallbackFlasher [12, 13, 14] smallMach).___DataBuff.content
      = smallMach.___DataBuff.content ++ [12, 13, 14].take (4 - 2) :=
  ⟨(C17_overflow_keeps_first_bytes [12, 13, 14] smallMach 4 2 smallMach_holds (by decide)).1,
   (C17_overflow_keeps_first_bytes [12, 13, 14] smallMach 4 2 smallMach_holds (by decide)).2.2.1⟩

/-! ## Claims on the size of a block, the last poll and the 16-bit counter -/

/-- C16, as stated, fails: `sizeof(Bloc)` is not the sum 1035 of the field sizes. -/
theorem C16_counterexample :
    (4 + 2 + 1 + 1 + TAILLE_BLOC_TRANS + 3 = 1035) ∧ sizeofBloc = 1036 ∧ sizeofBloc ≠ 1035 := by
  decide

/-- C16, amended: the fields of `Bloc`, of sizes 4, 2, 1, 1, 1024 and 3, lie at offsets
0, 4, 6, 7, 8 and 1032 and end at offset 1035; `sizeof(Bloc)`, the count the wait loop
compares `getNbData()` with, is 1036, one byte of tail padding more; the capacity of the
reception buffer, `2 * sizeof(Bloc) = 2072`, strictly exceeds it. -/
theorem C16_sizeof_Bloc :
    BlocMembers.map Member.size = [4, 2, 1, 1, 1024, 3] ∧
    (memberOffsets BlocMembers 0).1 = [0, 4, 6, 7, 8, 1032] ∧
    (memberOffsets BlocMembers 0).2 = 1035 ∧
    sizeofBloc = 1035 + 1 ∧
    bootMach.___DataBuff.m_pEndBuff = 2 * sizeofBloc ∧
    sizeofBloc < bootMach.___DataBuff.m_pEndBuff ∧
    (∀ p : Nat → Nat,
      Bloc.StartMarker p 0 = p 0 ∧ Bloc.NumBloc p = p 4 + 256 * p 5 ∧ Bloc._CRC p = p 6 ∧
      Bloc._EndTrans p = p 7 ∧ Bloc.Data p 0 = p 8 ∧ Bloc.EndMarker p 0 = p 1032) := by
  refine ⟨by decide, by decide, by decide, by decide, by decide, by decide, ?_⟩
  intro p
  exact ⟨rfl, rfl, rfl, rfl, rfl, rfl⟩

theorem atPoll_lateRx_before (V : Nat) (buf : List Nat) (m : Mach) :
    ∀ k, k < V → FlasherClient.atPoll (lateRx V buf) m k = m := by
  intro k
  induction k with
  | zero =>
    intro h
    show UsbCallbackFlasher (lateRx V buf 0) m = m
    have e : lateRx V buf 0 = [] := by
      unfold lateRx; rw [if_neg (by omega)]
    rw [e]; rfl
  | succ k ih =>
    intro h
    show UsbCallbackFlasher (lateRx V buf (k + 1)) (FlasherClient.atPoll (lateRx V buf) m k) = m
    have e : lateRx V buf (k + 1) = [] := by
      unfold lateRx; rw [if_neg (by omega)]
    rw [e, ih (by omega)]; rfl

theorem atPoll_lateRx_at (V : Nat) (buf : List Nat) (m : Mach) :
    FlasherClient.atPoll (lateRx V buf) m V = UsbCallbackFlasher buf m := by
  have e : lateRx V buf V = buf := by unfold lateRx; rw [if_pos rfl]
  cases V with
  | zero =>
    show UsbCallbackFlasher (lateRx 0 buf 0) m = _
    rw [e]
  | succ k =>
    show UsbCallbackFlasher (lateRx (k + 1) buf (k + 1))
      (FlasherClient.atPoll (lateRx (k + 1) buf) m k) = _
    rw [e, atPoll_lateRx_before (k + 1) buf m k (by omega)]

/-- A pass in which no poll before the last one sees a full block ends in the timeout
branch, whatever the buffer holds at the last poll. -/
theorem iteration_budget_spent (P : Platform) (fuel : Nat) (rx : Nat → List Nat) (s : Client)
    (hV : P.VAL_TIMEOUT ≤ 65535) (hfuel : P.VAL_TIMEOUT < fuel)
    (hquiet : ∀ k, k < P.VAL_TIMEOUT →
      (FlasherClient.atPoll rx (FlasherClient.request s).mach k).___DataBuff.getNbData
        < sizeofBloc) :
    FlasherClient.iteration P fuel rx s = some
      { NumBloc := (FlasherClient.request s).NumBloc
        ResultProcess := false
        mach := { FlasherClient.atPoll rx (FlasherClient.request s).mach P.VAL_TIMEOUT with
          led := !(FlasherClient.atPoll rx (FlasherClient.request s).mach P.VAL_TIMEOUT).led } } := by
  obtain ⟨t, _, htV, hw, _, hafter⟩ :=
    wait_ends P rx (FlasherClient.request s).mach hV fuel 0 (Nat.zero_le _) (by omega)
  have ht : t = P.VAL_TIMEOUT := by
    by_contra hne
    have hlt : t < P.VAL_TIMEOUT := by omega
    have := hafter hlt
    have := hquiet t hlt
    omega
  subst ht
  unfold FlasherClient.iteration
  have hw' : FlasherClient.wait P rx fuel 0 0
      (UsbCallbackFlasher (rx 0) (FlasherClient.request s).mach)
      = some (P.VAL_TIMEOUT, FlasherClient.atPoll rx (FlasherClient.request s).mach P.VAL_TIMEOUT) := hw
  simp only [hw']
  rw [process_timeout P _ _ (Nat.lt_irrefl _)]

/-- A full block that arrives during the last allowed delay is handled as a timeout. -/
theorem iteration_late (P : Platform) (fuel : Nat) (s : Client) (p : Nat → Nat)
    (hV : P.VAL_TIMEOUT ≤ 65535) (hfuel : P.VAL_TIMEOUT < fuel)
    (hroom : sizeofBloc ≤ s.mach.___DataBuff.m_pEndBuff) :
    FlasherClient.iteration P fuel (lateRx P.VAL_TIMEOUT (blocBytes p)) s = some
      { NumBloc := (FlasherClient.request s).NumBloc
        ResultProcess := false
        mach := { delivered p (FlasherClient.request s).mach with
          led := !(FlasherClient.request s).mach.led } } := by
  have h := iteration_budget_spent P fuel (lateRx P.VAL_TIMEOUT (blocBytes p)) s hV hfuel (by
    intro k hk
    rw [atPoll_lateRx_before _ _ _ k hk]
    show 0 < sizeofBloc
    rw [sizeofBloc_eq]
    omega)
  rw [h, atPoll_lateRx_at, UsbCallbackFlasher_blocBytes p s hroom]
  rfl

theorem delivered_valid (p : Nat → Nat) (m : Mach) (n : Nat) (hv : ValidBloc p n) :
    ValidBloc (delivered p m).___DataBuff.getBuffPtr n := by
  apply validBloc_congr p _ n _ hv
  intro j hj
  show p j = if j < sizeofBloc then p j else _
  rw [if_pos hj]

/-- C14 fails on the code: on the sample platform (`VAL_TIMEOUT = 3`), from power-on, the
well-formed block 0 delivered during the third delay leaves the wait loop with a full
block in the buffer, and yet the pass takes the timeout branch: `BlocProcess` is not
called, `ResultProcess` is `false`, the next request is again for block 0. -/
theorem C14_block_in_last_interval_times_out :
    ∃ s' : Client,
      FlasherClient.iteration samplePlatform 4
        (lateRx samplePlatform.VAL_TIMEOUT (blocBytes (sampleBloc 0 1 0 samplePayload)))
        (FlasherClient.entry bootMach) = some s' ∧
      s'.mach.___DataBuff.getNbData = sizeofBloc ∧
      ValidBloc s'.mach.___DataBuff.getBuffPtr 0 ∧
      s'.mach.calls = [] ∧ s'.mach.ops = [] ∧ s'.ResultProcess = false ∧
      (FlasherClient.request s').NumBloc = 0 :=
  ⟨_, iteration_late samplePlatform 4 (FlasherClient.entry bootMach)
      (sampleBloc 0 1 0 samplePayload) (by decide) (by decide) bootMach_room,
    rfl, delivered_valid _ _ 0 (sampleBloc_valid 0), rfl, rfl, rfl, rfl⟩

/-- The number `FlasherClient` passes to `BlocProcess` fits 16 bits. -/
theorem request_lt (s : Client) : (FlasherClient.request s).NumBloc < 65536 := by
  rw [request_NumBloc]
  split
  · decide
  · exact Nat.mod_lt _ (by decide)

/-- C18: the counter is 16-bit. After a pass whose block, numbered `n`, left `BlocProcess`
by "Continue processing", the next request message, marker `BLOC`, carries `n + 1` when
`n < 65535` and 0 when `n = 65535`; in that case the next call of `BlocProcess` is for
number 0, slot `0 mod 8 = 0` of page `0 div 8 = 0`: a well-formed block is then stored at
the start of the page buffer, and its commit, when due, goes to the first page of
`__FlasherData`. -/
theorem C18_counter_wraps (P : Platform) (fuel : Nat) (rx : Nat → List Nat) (s s' : Client)
    (c : Call) (hit : FlasherClient.iteration P fuel rx s = some s')
    (hcall : s'.mach.calls = s.mach.calls ++ [c])
    (hok : c.exit = Exit.continueProcessing) :
    c.NumBloc = s'.NumBloc ∧ c.NumBloc < 65536 ∧
    (c.NumBloc < 65535 →
      (FlasherClient.request s').NumBloc = c.NumBloc + 1 ∧
      (FlasherClient.request s').mach.sent = s'.mach.sent ++
        [{ StartMarker := [66, 76, 79, 67], NumBloc := c.NumBloc + 1 }] ∧
      (∀ (fuel' : Nat) (rx' : Nat → List Nat) (s'' : Client),
        FlasherClient.iteration P fuel' rx' s' = some s'' →
        s''.NumBloc = c.NumBloc + 1 ∧
        s''.mach.sent = s'.mach.sent ++
          [{ StartMarker := [66, 76, 79, 67], NumBloc := c.NumBloc + 1 }] ∧
        (∀ c' : Call, s''.mach.calls = s'.mach.calls ++ [c'] → c'.NumBloc = c.NumBloc + 1))) ∧
    (c.NumBloc = 65535 →
      (FlasherClient.request s').NumBloc = 0 ∧
      (FlasherClient.request s').mach.sent = s'.mach.sent ++ [requestMsg 0] ∧
      (∀ (fuel' : Nat) (rx' : Nat → List Nat) (s'' : Client) (c' : Call),
        FlasherClient.iteration P fuel' rx' s' = some s'' →
        s''.mach.calls = s'.mach.calls ++ [c'] →
        c'.NumBloc = 0 ∧ c'.NumBloc % NB_BLOC_TRANS = 0 ∧ c'.NumBloc / NB_BLOC_TRANS = 0) ∧
      (∀ m : Mach, ValidBloc m.___DataBuff.getBuffPtr (FlasherClient.request s').NumBloc →
        (∀ i, i < TAILLE_BLOC_TRANS →
          (BlocProcess P (FlasherClient.request s').NumBloc m).2.__PageBuff i
            = Bloc.Data m.___DataBuff.getBuffPtr i) ∧
        ((BlocProcess P (FlasherClient.request s').NumBloc m).2.ops = m.ops ∨
          (BlocProcess P (FlasherClient.request s').NumBloc m).2.ops = m.ops ++
            [FlashOp.erase P.FlasherDataAddr, FlashOp.write P.FlasherDataAddr TAILLE_PAGES_QSPI,
              FlashOp.readback P.FlasherDataAddr TAILLE_PAGES_QSPI])) ∧
      (FlasherClient.request s').mach.sent = s'.mach.sent ++
        [{ StartMarker := [66, 76, 79, 67], NumBloc := 0 }] ∧
      (∀ (fuel' : Nat) (rx' : Nat → List Nat) (s'' : Client),
        FlasherClient.iteration P fuel' rx' s' = some s'' →
        s''.NumBloc = 0 ∧
        s''.mach.sent = s'.mach.sent ++ [{ StartMarker := [66, 76, 79, 67], NumBloc := 0 }])) := by
  have hcases := iteration_cases P fuel rx s s' hit
  have hc : s'.ResultProcess = true ∧ c.NumBloc = s'.NumBloc := by
    rcases hcases.2.2 with ⟨_, hcalls, _⟩ | ⟨_, c', hcalls, hr, hn, _⟩
    · rw [hcalls] at hcall
      have := congrArg List.length hcall
      simp at this
    · rw [hcalls] at hcall
      have e : c' = c := by simpa using hcall
      subst e
      exact ⟨by rw [hr, hok]; rfl, by rw [hn, hcases.1]⟩
  have hlt : c.NumBloc < 65536 := by
    rw [hc.2, hcases.1]; exact request_lt s
  have hreq : (FlasherClient.request s').NumBloc = (c.NumBloc + 1) % 65536 := by
    rw [request_NumBloc, hc.1, hc.2]
    simp
  have hmsg : ∀ n : Nat, requestMsg n = { StartMarker := [66, 76, 79, 67], NumBloc := n } :=
    fun _ => rfl
  have hnext : ∀ (n : Nat), (FlasherClient.request s').NumBloc = n →
      ∀ (fuel' : Nat) (rx' : Nat → List Nat) (s'' : Client),
        FlasherClient.iteration P fuel' rx' s' = some s'' →
        s''.NumBloc = n ∧
        s''.mach.sent = s'.mach.sent ++ [{ StartMarker := [66, 76, 79, 67], NumBloc := n }] ∧
        (∀ c' : Call, s''.mach.calls = s'.mach.calls ++ [c'] → c'.NumBloc = n) := by
    intro n hn fuel' rx' s'' hit'
    have hcases' := iteration_cases P fuel' rx' s' s'' hit'
    refine ⟨by rw [hcases'.1, hn], by rw [hcases'.2.1, hn, hmsg], ?_⟩
    intro c' hcall'
    rcases hcases'.2.2 with ⟨_, hcalls, _⟩ | ⟨_, c'', hcalls, _, hn', _⟩
    · rw [hcalls] at hcall'
      have := congrArg List.length hcall'
      simp at this
    · rw [hcalls] at hcall'
      have e : c'' = c' := by simpa using hcall'
      subst e
      rw [hn', hn]
  refine ⟨hc.2, hlt, ?_, ?_⟩
  · intro h
    have h1 : (FlasherClient.request s').NumBloc = c.NumBloc + 1 := by
      rw [hreq]
      exact Nat.mod_eq_of_lt (by omega)
    exact ⟨h1, by rw [request_sent, h1, hmsg], hnext _ h1⟩
  · intro h
    have h0 : (FlasherClient.request s').NumBloc = 0 := by
      rw [hreq, h]
    refine ⟨h0, by rw [request_sent, h0], ?_, ?_, by rw [request_sent, h0, hmsg], ?_⟩
    · intro fuel' rx' s'' c' hit' hcall'
      have hn' : c'.NumBloc = 0 := (hnext 0 h0 fuel' rx' s'' hit').2.2 c' hcall'
      rw [hn']
      exact ⟨rfl, rfl, rfl⟩
    · intro m hv
      rw [h0] at hv ⊢
      refine ⟨?_, ?_⟩
      · intro i hi
        rw [BlocProcess_page P 0 m (headerInvalid_of_valid hv)]
        have := storeSlot_in m.___DataBuff.getBuffPtr (0 % NB_BLOC_TRANS) m.__PageBuff i hi
        have e : 0 % NB_BLOC_TRANS * TAILLE_BLOC_TRANS + i = i := by
          simp only [Nat.zero_mod, Nat.zero_mul, Nat.zero_add]
        rw [e] at this
        exact this
      · rcases BlocProcess_valid_ops P 0 m hv with ⟨_, h1, _⟩ | ⟨_, h1, _⟩
        · right
          rw [h1]
          have e : pageAddr P (0 / NB_BLOC_TRANS) = P.FlasherDataAddr := by
            simp only [pageAddr, Nat.zero_div, Nat.zero_mul, Nat.add_zero]
          rw [e]
        · left; exact h1
    · intro fuel' rx' s'' hit'
      have h := hnext 0 h0 fuel' rx' s'' hit'
      exact ⟨h.1, h.2.1⟩

/-- C18 on the sample platform: after block 65535 handled with success the request
message carries 0; after block 0 handled with success from power-on it carries 1. -/
theorem C18_witness :
    (∃ (s' : Client) (c : Call),
      FlasherClient.iteration samplePlatform 4 (goodRx 65535) afterBloc65534 = some s' ∧
      s'.mach.calls = afterBloc65534.mach.calls ++ [c] ∧
      c.exit = Exit.continueProcessing ∧ s'.NumBloc = 65535 ∧
      (FlasherClient.request s').NumBloc = 0 ∧
      (FlasherClient.request s').mach.sent = s'.mach.sent ++
        [{ StartMarker := [66, 76, 79, 67], NumBloc := 0 }]) ∧
    (∃ (s' : Client) (c : Call),
      FlasherClient.iteration samplePlatform 4 (goodRx 0) (FlasherClient.entry bootMach)
        = some s' ∧
      s'.mach.calls = (FlasherClient.entry bootMach).mach.calls ++ [c] ∧
      c.exit = Exit.continueProcessing ∧ c.NumBloc = 0 ∧
      (FlasherClient.request s').mach.sent = s'.mach.sent ++
        [{ StartMarker := [66, 76, 79, 67], NumBloc := c.NumBloc + 1 }]) := by
  constructor
  · obtain ⟨s', c, hit, hcall, hexit, hnum, _⟩ :=
      iteration_good samplePlatform samplePlatform_faithful (by decide) 4 (by decide)
        afterBloc65534 (sampleBloc 65535 1 0 samplePayload) bootMach_room
        (sampleBloc_valid 65535) rfl
    have hw := C18_counter_wraps samplePlatform 4 (goodRx 65535) afterBloc65534 s' c hit hcall
      hexit
    have hn : s'.NumBloc = 65535 := hnum
    have hb := hw.2.2.2 (by rw [hw.1, hn])
    exact ⟨s', c, hit, hcall, hexit, hn, hb.1, hb.2.2.2.2.1⟩
  · obtain ⟨s', c, hit, hcall, hexit, hnum, _⟩ :=
      iteration_good samplePlatform samplePlatform_faithful (by decide) 4 (by decide)
        (FlasherClient.entry bootMach) (sampleBloc 0 1 0 samplePayload) bootMach_room
        (sampleBloc_valid 0) rfl
    have hw := C18_counter_wraps samplePlatform 4 (goodRx 0) (FlasherClient.entry bootMach) s' c
      hit hcall hexit
    have hn : s'.NumBloc = 0 := hnum
    have hc0 : c.NumBloc = 0 := by rw [hw.1, hn]
    exact ⟨s', c, hit, hcall, hexit, hc0, (hw.2.2.1 (by rw [hc0]; decide)).2.1⟩

/-! ## Replay of a transfer -/

theorem samplePlatform_isolated : Isolated samplePlatform := by
  intro buf addr flash x hx
  show (if addr ≤ x ∧ x < addr + TAILLE_PAGES_QSPI then buf (x - addr)
    else (if addr ≤ x ∧ x < addr + QFLAH_SECTOR_SIZE then 255 else flash x)) = flash x
  have hx' : ¬ (addr ≤ x ∧ x < addr + QFLAH_SECTOR_SIZE) := hx
  rw [if_neg hx, if_neg hx']

theorem storeSlot_div (p : Nat → Nat) (slot : Nat) (page : Nat → Nat) (x : Nat) :
    storeSlot p slot page x
      = if x / 1024 = slot then Bloc.Data p (x - slot * 1024) else page x := by
  unfold storeSlot slotOffset
  simp only [TAILLE_BLOC_TRANS]
  by_cases h : x / 1024 = slot
  · rw [if_pos h, if_pos (by omega)]
  · rw [if_neg h, if_neg (by omega)]

/-- One more block of a sweep from block 0, for a well-formed block. -/
theorem sweep_step (P : Platform) (blocs : Nat → Nat → Nat) (j : Nat) (m : Mach)
    (hv : ValidBloc (blocs j) j) :
    (sweep P 0 blocs (j + 1) m).__PageBuff
      = storeSlot (blocs j) (j % NB_BLOC_TRANS) (sweep P 0 blocs j m).__PageBuff ∧
    ((j % 8 = 7 ∨ Bloc._EndTrans (blocs j) ≠ 0) →
      (sweep P 0 blocs (j + 1) m).flash =
        P.Write (sweep P 0 blocs (j + 1) m).__PageBuff (pageAddr P (j / 8)) TAILLE_PAGES_QSPI
          (P.EraseBlock4K (pageAddr P (j / 8)) (sweep P 0 blocs j m).flash)) ∧
    (¬ (j % 8 = 7 ∨ Bloc._EndTrans (blocs j) ≠ 0) →
      (sweep P 0 blocs (j + 1) m).flash = (sweep P 0 blocs j m).flash) := by
  have e : sweep P 0 blocs (j + 1) m
      = (BlocProcess P (0 + j) (received (blocs j) (sweep P 0 blocs j m))).2 := rfl
  rw [e, Nat.zero_add]
  have hv' : ValidBloc (received (blocs j) (sweep P 0 blocs j m)).___DataBuff.getBuffPtr j := hv
  have hp := BlocProcess_page P j _ (headerInvalid_of_valid hv')
  refine ⟨hp, ?_, ?_⟩
  · intro hd
    rcases BlocProcess_valid_ops P j _ hv' with ⟨_, _, h2⟩ | ⟨hnd, _, _⟩
    · rw [h2, hp]; rfl
    · exact absurd hd hnd
  · intro hd
    rcases BlocProcess_valid_ops P j _ hv' with ⟨hd', _, _⟩ | ⟨_, _, h2⟩
    · exact absurd hd' hd
    · rw [h2]; rfl

/-- A sweep from block 0 over `j` well-formed blocks does not touch the slots from `j`
on. -/
theorem sweep_page_untouched (P : Platform) (blocs : Nat → Nat → Nat) (m : Mach) :
    ∀ j, (∀ i, i < j → ValidBloc (blocs i) i) → ∀ x, j ≤ x / 1024 →
      (sweep P 0 blocs j m).__PageBuff x = m.__PageBuff x := by
  intro j
  induction j with
  | zero => intro _ x _; rfl
  | succ j ih =>
    intro hv x hx
    rw [(sweep_step P blocs j m (hv j (by omega))).1, storeSlot_div]
    have hmod : j % NB_BLOC_TRANS ≤ j := Nat.mod_le _ _
    rw [if_neg (by omega)]
    exact ih (fun i hi => hv i (by omega)) x (by omega)

/-- Two sweeps over the same transfer, run side by side from two machines whose page
buffers agree on the slots the transfer never writes: they agree on every slot written
so far, and on every sector committed so far. -/
theorem replay_lockstep (P : Platform) (hf : Faithful P) (hi : Isolated P) (k : Nat)
    (blocs : Nat → Nat → Nat) (m1 m2 : Mach)
    (hv : ∀ i, i ≤ k → ValidBloc (blocs i) i)
    (hflag0 : ∀ i, i < k → Bloc._EndTrans (blocs i) = 0)
    (hflagk : Bloc._EndTrans (blocs k) ≠ 0)
    (h0 : ∀ x, k < x / 1024 → m2.__PageBuff x = m1.__PageBuff x) :
    ∀ j, j ≤ k + 1 →
      (∀ x, x < 8192 → (x / 1024 < j ∨ k < x / 1024) →
        (sweep P 0 blocs j m2).__PageBuff x = (sweep P 0 blocs j m1).__PageBuff x) ∧
      (∀ q, (8 * q + 7 < j ∨ (q = k / 8 ∧ k < j)) → ∀ x, x < 8192 →
        (sweep P 0 blocs j m2).flash (pageAddr P q + x)
          = (sweep P 0 blocs j m1).flash (pageAddr P q + x)) := by
  intro j
  induction j with
  | zero =>
    intro _
    refine ⟨?_, ?_⟩
    · intro x _ hx
      rcases hx with hx | hx
      · omega
      · exact h0 x hx
    · intro q hq
      omega
  | succ j ih =>
    intro hj
    obtain ⟨iha, ihb⟩ := ih (by omega)
    have hvj := hv j (by omega)
    obtain ⟨p1, d1, n1⟩ := sweep_step P blocs j m1 hvj
    obtain ⟨p2, d2, n2⟩ := sweep_step P blocs j m2 hvj
    have hpage : ∀ x, x < 8192 → (x / 1024 < j + 1 ∨ k < x / 1024) →
        (sweep P 0 blocs (j + 1) m2).__PageBuff x = (sweep P 0 blocs (j + 1) m1).__PageBuff x := by
      intro x hx hcond
      rw [p1, p2, storeSlot_div, storeSlot_div]
      by_cases hs : x / 1024 = j % NB_BLOC_TRANS
      · rw [if_pos hs, if_pos hs]
      · rw [if_neg hs, if_neg hs]
        apply iha x hx
        simp only [NB_BLOC_TRANS] at hs
        omega
    refine ⟨hpage, ?_⟩
    intro q hq x hx
    by_cases hd : j % 8 = 7 ∨ Bloc._EndTrans (blocs j) ≠ 0
    · have hjk : j % 8 = 7 ∨ j = k := by
        rcases hd with h | h
        · exact Or.inl h
        · right
          by_contra hne
          exact h (hflag0 j (by omega))
      rw [d1 hd, d2 hd]
      by_cases hq' : q = j / 8
      · subst hq'
        have hx' : x < TAILLE_PAGES_QSPI := hx
        rw [hf _ _ _ _ x hx', hf _ _ _ _ x hx']
        apply hpage x hx
        omega
      · have hout : ¬ (pageAddr P (j / 8) ≤ pageAddr P q + x ∧
            pageAddr P q + x < pageAddr P (j / 8) + TAILLE_PAGES_QSPI) := by
          simp only [pageAddr, TAILLE_PAGES_QSPI, QFLAH_SECTOR_SIZE]
          omega
        rw [hi _ _ _ _ hout, hi _ _ _ _ hout]
        apply ihb q _ x hx
        omega
    · have hj7 : j % 8 ≠ 7 := fun h => hd (Or.inl h)
      have hjk : j ≠ k := by
        intro h
        subst h
        exact hd (Or.inr hflagk)
      rw [n1 hd, n2 hd]
      apply ihb q _ x hx
      omega

/-- C13: on a faithful flash whose commits stay within their sector, for every transfer
of well-formed blocks `0 .. k` flagged on block `k` only, processing the transfer with
`BlocProcess` and then processing it again from block 0, starting from the page buffer
and the flash left by the first pass, leaves every committed page (`0 .. k div 8`) with
the content it had after the first pass. -/
theorem C13_replay_idempotent (P : Platform) (hf : Faithful P) (hi : Isolated P) (k : Nat)
    (blocs : Nat → Nat → Nat) (m : Mach)
    (hv : ∀ i, i ≤ k → ValidBloc (blocs i) i)
    (hflag0 : ∀ i, i < k → Bloc._EndTrans (blocs i) = 0)
    (hflagk : Bloc._EndTrans (blocs k) ≠ 0) :
    ∀ q, q ≤ k / 8 → ∀ x, x < TAILLE_PAGES_QSPI →
      (sweep P 0 blocs (k + 1) (sweep P 0 blocs (k + 1) m)).flash (pageAddr P q + x)
        = (sweep P 0 blocs (k + 1) m).flash (pageAddr P q + x) := by
  intro q hq x hx
  have h0 : ∀ y, k < y / 1024 →
      (sweep P 0 blocs (k + 1) m).__PageBuff y = m.__PageBuff y := by
    intro y hy
    exact sweep_page_untouched P blocs m (k + 1) (fun i hi' => hv i (by omega)) y (by omega)
  have h := (replay_lockstep P hf hi k blocs m (sweep P 0 blocs (k + 1) m) hv hflag0 hflagk h0
    (k + 1) (Nat.le_refl _)).2 q (by omega) x hx
  exact h

/-- C13 on the sample flash, for the transfer of blocks 0, 1, 2: first byte of page 0. -/
theorem C13_witness :
    Faithful samplePlatform ∧ Isolated samplePlatform ∧
    (sweep samplePlatform 0 shortTransfer (2 + 1)
        (sweep samplePlatform 0 shortTransfer (2 + 1) bootMach)).flash
      (pageAddr samplePlatform 0 + 0)
      = (sweep samplePlatform 0 shortTransfer (2 + 1) bootMach).flash
        (pageAddr samplePlatform 0 + 0) :=
  ⟨samplePlatform_faithful, samplePlatform_isolated,
   C13_replay_idempotent samplePlatform samplePlatform_faithful samplePlatform_isolated 2
     shortTransfer bootMach (by decide!) (by decide!) (by decide!) 0 (by decide) 0 (by decide)⟩

end Oscar
